import Mathlib

/-!
Verification development for the dl-analytics schema-extraction pipeline.

The Python sources are shallowly embedded over `List Char` (so that every
definition kernel-evaluates on concrete inputs).  Text is modelled as the
list of its characters; Python `str` values inside parsed records are
modelled by the inductive `Val` below.  Each definition carries the name of
the Python function it embeds.
-/

/-- ASCII whitespace, matching Python's `str.strip` / regex `\s` on the
ASCII range (all inputs in this development are ASCII). -/
def isWSChar (c : Char) : Bool :=
  c = ' ' || c = '\t' || c = '\n' || c = '\r' || c = '\x0b' || c = '\x0c'

/-- Python `str.lower()` on the ASCII range. -/
def lowerL (s : List Char) : List Char :=
  s.map Char.toLower

/-- Python `str.upper()` on the ASCII range. -/
def upperL (s : List Char) : List Char :=
  s.map Char.toUpper

/-- Python `str.lstrip()`. -/
def trimLeftL (s : List Char) : List Char :=
  s.dropWhile isWSChar

/-- Python `str.rstrip()`. -/
def trimRightL (s : List Char) : List Char :=
  (s.reverse.dropWhile isWSChar).reverse

/-- Python `str.strip()`. -/
def trimL (s : List Char) : List Char :=
  trimRightL (trimLeftL s)

/-- `needle` occurs at the start of `hay` (Python `str.startswith`). -/
def hasPre : List Char → List Char → Bool
  | [], _ => true
  | _ :: _, [] => false
  | n :: ns, h :: hs => n = h && hasPre ns hs

/-- Python's substring test `needle in hay` (the empty needle is in
every string, as in Python). -/
def hasSub (needle : List Char) : List Char → Bool
  | [] => needle.isEmpty
  | c :: rest => hasPre needle (c :: rest) || hasSub needle rest

/-- Index of the first occurrence of `needle` in `hay`, Python `str.find`
(which returns `-1`, modelled as `none`, when absent). -/
def findSub (needle : List Char) : List Char → Option Nat
  | [] => if needle.isEmpty then some 0 else none
  | c :: rest =>
    if hasPre needle (c :: rest) then some 0
    else (findSub needle rest).map (· + 1)

/-- Split on a single character; every separator produces a boundary, so
`splitChar '.' "a..b" = ["a", "", "b"]` exactly as Python `str.split('.')`. -/
def splitChar (sep : Char) (s : List Char) : List (List Char) :=
  s.foldr
    (fun c acc =>
      if c = sep then [] :: acc
      else match acc with
        | [] => [[c]]
        | p :: ps => (c :: p) :: ps)
    [[]]

/-- Python `str.split()` with no argument: split on whitespace runs,
discarding empty pieces. -/
def splitWsAny (s : List Char) : List (List Char) :=
  (s.foldr
    (fun c acc =>
      if isWSChar c then [] :: acc
      else match acc with
        | [] => [[c]]
        | p :: ps => (c :: p) :: ps)
    [[]]).filter (fun p => !p.isEmpty)

/-- Python `str.splitlines()` on texts whose only line break is `'\n'`:
split on newlines, dropping the final empty piece a trailing newline
would produce. -/
def splitlinesL (s : List Char) : List (List Char) :=
  let ps := splitChar '\n' s
  if h : ps = [] then ps
  else if ps.getLast h = [] then ps.dropLast else ps

/-- Python `sep.join(pieces)`. -/
def joinSep (sep : List Char) : List (List Char) → List Char
  | [] => []
  | [p] => p
  | p :: q :: rest => p ++ sep ++ joinSep sep (q :: rest)

/-- `'\n'.join(lines)`. -/
def joinLines (ls : List (List Char)) : List Char :=
  joinSep [ '\n' ] ls

/-- Splitting on a multi-character separator (Python `str.split(sep)`),
implemented with explicit fuel (the separator is consumed wholly at each
occurrence, so `s.length + 1` steps always suffice). -/
def splitOnSubAux (sep : List Char) : Nat → List Char → List Char → List (List Char)
  | 0, rest, acc => [acc.reverse ++ rest]
  | _ + 1, [], acc => [acc.reverse]
  | fuel + 1, c :: rest, acc =>
    if hasPre sep (c :: rest) then
      acc.reverse :: splitOnSubAux sep fuel ((c :: rest).drop sep.length) []
    else
      splitOnSubAux sep fuel rest (c :: acc)

/-- Python `str.split(sep)` for a non-empty multi-character separator. -/
def splitOnSub (sep s : List Char) : List (List Char) :=
  splitOnSubAux sep (s.length + 1) s []

/-- Decimal digits to a natural number, Python `int(...)` on an all-digit
string. -/
def digitsToNat (s : List Char) : Nat :=
  s.foldl (fun n c => n * 10 + (c.toNat - '0'.toNat)) 0

/-- Python `str.isdigit()` for ASCII input: non-empty and all digits. -/
def isDigitsL (s : List Char) : Bool :=
  !s.isEmpty && s.all (fun c => c.isDigit)

/-- The apostrophe character (used verbatim inside the merger's warning
messages). -/
def sqC : Char := Char.ofNat 39

/-- Wrap a string in single quotes, as the merger's f-strings do. -/
def quoteL (s : List Char) : List Char :=
  sqC :: s ++ [sqC]

/-- Values stored in a parsed record: embeds the Python values that the
extractor actually stores in its per-item dictionaries (`None`, `str`,
`bool`, `int`, `list[str]`). -/
inductive Val where
  | vnull : Val
  | vstr : List Char → Val
  | vbool : Bool → Val
  | vnat : Nat → Val
  | vlist : List (List Char) → Val
deriving DecidableEq, Repr

/-- Python `str(v)` for the values above (used when a value is
interpolated into a warning message). -/
def pyStrVal : Val → List Char
  | Val.vnull => "None".toList
  | Val.vstr s => s
  | Val.vbool true => "True".toList
  | Val.vbool false => "False".toList
  | Val.vnat n => (toString n).toList
  | Val.vlist ls => '[' :: joinSep ", ".toList (ls.map quoteL) ++ [']']

/-- A parsed record (one column / index / foreign key / computed column):
a Python dict in insertion order. -/
abbrev Item := List (List Char × Val)

/-- `clean_table_name` (src/notes/toc_extractor.py): strip surrounding
whitespace, then delete every `[` and `]`.  Note: it does NOT change
letter case. -/
def clean_table_name (name : List Char) : List Char :=
  (trimL name).filter (fun c => !(c = '[' || c = ']'))

/-- `parse_boolean` (src/notes/create_formatted_json_output.py), on the
inputs the extractor feeds it (a string or `None`): `None` stays `None`,
and a string maps to `True` exactly when its stripped, lowered form is
one of `yes`, `true`, `1`, `y` — every other string maps to `False`. -/
def parse_boolean : Option (List Char) → Option Bool
  | none => none
  | some s =>
    some (decide (lowerL (trimL s) ∈ [ "yes".toList, "true".toList, "1".toList, "y".toList ]))

namespace SchemaMerger

/-- One source's parsed bundle for one table (`ParsedSection`,
src/extractor/core.py). -/
structure ParsedSection where
  columns : List Item := []
  indexes : List Item := []
  foreign_keys : List Item := []
  computed_columns : List Item := []
  provenance : List Char := []
deriving DecidableEq, Repr

/-- The merger's per-table output dictionary (`_merge_table`'s
`merged_data`, src/extractor/merger.py). -/
structure MergedTable where
  schema : List Char
  table_name : List Char
  columns : List Item
  indexes : List Item
  foreign_keys : List Item
  computed_columns : List Item
  extraction_source : List Char
  warnings : List (List Char)
deriving DecidableEq, Repr

/-- `item[id_field].lower()`.  In Python a non-`str` value here would
raise `AttributeError`; the embedding totalizes that crash state to `[]`
(no theorem below ever reaches it: named items carry `Val.vstr` names). -/
def pyLowerVal : Val → List Char
  | Val.vstr s => lowerL s
  | _ => []

/-- The dict comprehension
`{item[id_field].lower(): item for item in primary_items if id_field in item}`
followed by a lookup: a later item with the same lowered name overrides an
earlier one, hence the search runs over the reversed list. -/
def primary_map_find (id_field : List Char) (items : List Item) (key : List Char) : Option Item :=
  items.reverse.find? (fun it =>
    match List.lookup id_field it with
    | some v => pyLowerVal v == key
    | none => false)

/-- The conflict warning f-string of `_merge_section_items`. -/
def conflict_msg (item_type : List Char) (sec_name : Val) (table_name : List Char)
    (key : List Char) (pri_value sec_value : Val)
    (primary_name secondary_name : List Char) : List Char :=
  "Conflict: ".toList ++ item_type ++ [' '] ++ quoteL (pyStrVal sec_name) ++
  " in ".toList ++ table_name ++ " has different ".toList ++ quoteL key ++
  " values: ".toList ++ primary_name ++ ['='] ++ quoteL (pyStrVal pri_value) ++
  ", ".toList ++ secondary_name ++ ['='] ++ quoteL (pyStrVal sec_value) ++
  ". Using ".toList ++ primary_name ++ " version.".toList

/-- The missing-id warning f-string of `_merge_section_items`. -/
def missing_id_msg (item_type table_name secondary_name id_field : List Char) : List Char :=
  "Warning: ".toList ++ item_type ++ " in ".toList ++ table_name ++
  " from ".toList ++ secondary_name ++ " is missing ".toList ++ id_field ++
  ", added as separate item".toList

/-- The inner field-comparison loop of `_merge_section_items`: for each
field of the secondary item also present in the matched primary item,
when both values are non-null and differ, one conflict warning is
emitted; the items themselves are never modified. -/
def conflict_fold (item_type table_name primary_name secondary_name : List Char)
    (sec_name : Val) (pri_item : Item) :
    List (List Char × Val) → List (List Char) → List (List Char)
  | [], ws => ws
  | kv :: entries, ws =>
    conflict_fold item_type table_name primary_name secondary_name sec_name pri_item entries
      (match List.lookup kv.1 pri_item with
       | none => ws
       | some pri_value =>
         if kv.2 ≠ pri_value ∧ kv.2 ≠ Val.vnull ∧ pri_value ≠ Val.vnull then
           ws ++ [ conflict_msg item_type sec_name table_name kv.1 pri_value kv.2
                     primary_name secondary_name ]
         else ws)

/-- The `for sec_item in secondary_items` loop of `_merge_section_items`,
carrying the (result, warnings) pair. -/
def merge_items_loop (primary_items : List Item)
    (table_name item_type id_field primary_name secondary_name : List Char) :
    List Item → List Item × List (List Char) → List Item × List (List Char)
  | [], acc => acc
  | sec_item :: rest, acc =>
    merge_items_loop primary_items table_name item_type id_field primary_name secondary_name
      rest
      (match List.lookup id_field sec_item with
       | none =>
         (acc.1 ++ [sec_item],
          acc.2 ++ [ missing_id_msg item_type table_name secondary_name id_field ])
       | some v =>
         match primary_map_find id_field primary_items (pyLowerVal v) with
         | some pri_item =>
           (acc.1,
            conflict_fold item_type table_name primary_name secondary_name
              v pri_item sec_item acc.2)
         | none => (acc.1 ++ [sec_item], acc.2))

/-- `SchemaMerger._merge_section_items` (src/extractor/merger.py).
Returns the merged item list together with the warnings list (the Python
code mutates the caller's list; the embedding returns the appended list). -/
def merge_section_items (primary_items secondary_items : List Item)
    (table_name item_type id_field : List Char)
    (warnings : List (List Char))
    (primary_name secondary_name : List Char) : List Item × List (List Char) :=
  if primary_items.isEmpty then (secondary_items, warnings)
  else if secondary_items.isEmpty then (primary_items, warnings)
  else
    merge_items_loop primary_items table_name item_type id_field primary_name secondary_name
      secondary_items (primary_items, warnings)

/-- The `schema` component computed by `_merge_table`. -/
def schema_of (table_name : List Char) : List Char :=
  let ps := splitChar '.' table_name
  if ps.length ≥ 2 then ps.headD [] else "dbo".toList

/-- The `table_name` component computed by `_merge_table`. -/
def short_name_of (table_name : List Char) : List Char :=
  let ps := splitChar '.' table_name
  if ps.length ≥ 2 then (ps.drop 1).headD [] else table_name

/-- `SchemaMerger._merge_table` (src/extractor/merger.py).  Note the
extraction-source tags the code actually writes: `"pdf"`, `"html"`,
`"merged"`. -/
def merge_table (prefer_html : Bool) (table_name : List Char)
    (pdf_section html_section : Option ParsedSection) : MergedTable :=
  let base : MergedTable :=
    { schema := schema_of table_name
      table_name := short_name_of table_name
      columns := [], indexes := [], foreign_keys := [], computed_columns := []
      extraction_source := []
      warnings := [] }
  match pdf_section, html_section with
  | some p, none =>
    { base with extraction_source := "pdf".toList
                columns := p.columns, indexes := p.indexes
                foreign_keys := p.foreign_keys, computed_columns := p.computed_columns }
  | none, some h =>
    { base with extraction_source := "html".toList
                columns := h.columns, indexes := h.indexes
                foreign_keys := h.foreign_keys, computed_columns := h.computed_columns }
  | some p, some h =>
    let primary := if prefer_html then h else p
    let secondary := if prefer_html then p else h
    let primary_name := if prefer_html then "html".toList else "pdf".toList
    let secondary_name := if prefer_html then "pdf".toList else "html".toList
    let rc := merge_section_items primary.columns secondary.columns
      table_name "column".toList "name".toList [] primary_name secondary_name
    let ri := merge_section_items primary.indexes secondary.indexes
      table_name "index".toList "name".toList rc.2 primary_name secondary_name
    let rf := merge_section_items primary.foreign_keys secondary.foreign_keys
      table_name "foreign key".toList "name".toList ri.2 primary_name secondary_name
    let rcc := merge_section_items primary.computed_columns secondary.computed_columns
      table_name "computed column".toList "name".toList rf.2 primary_name secondary_name
    { base with extraction_source := "merged".toList
                columns := rc.1, indexes := ri.1
                foreign_keys := rf.1, computed_columns := rcc.1
                warnings := rcc.2 }
  | none, none => base

/-- The merge metadata counters of `SchemaMerger.merge`. -/
structure MergeMeta where
  total_tables : Nat
  pdf_only_tables : Nat
  html_only_tables : Nat
  merged_tables : Nat
  warnings : List (List Char)
deriving DecidableEq, Repr

/-- The union of table-name keys (`set(pdf) | set(html)`); Python's set
iteration order is unspecified, so the embedding fixes one linearization
(pdf keys first, then new html keys) — every claim below is
order-independent. -/
def all_table_keys (pdf_data html_data : List (List Char × ParsedSection)) : List (List Char) :=
  pdf_data.map Prod.fst ++
    (html_data.map Prod.fst).filter (fun k => !(pdf_data.map Prod.fst).contains k)

/-- `SchemaMerger.merge` (src/extractor/merger.py): per-key merge plus
the metadata counters. -/
def merge (prefer_html : Bool) (pdf_data html_data : List (List Char × ParsedSection)) :
    MergeMeta × List (List Char × MergedTable) :=
  let keys := all_table_keys pdf_data html_data
  let tables := keys.map (fun k =>
    (k, merge_table prefer_html k (List.lookup k pdf_data) (List.lookup k html_data)))
  let inPdf := fun k => (List.lookup k pdf_data).isSome
  let inHtml := fun k => (List.lookup k html_data).isSome
  ({ total_tables := keys.length
     pdf_only_tables := (keys.filter (fun k => inPdf k && !inHtml k)).length
     html_only_tables := (keys.filter (fun k => !inPdf k && inHtml k)).length
     merged_tables := (keys.filter (fun k => inPdf k && inHtml k)).length
     warnings := [] },
   tables)

end SchemaMerger

open SchemaMerger

/-- Field `kv` of a secondary item conflicts with the matched primary
item: the key is present in both and the two values are non-null and
unequal (the condition tested inside `_merge_section_items`). -/
def isConflictB (pri_item : Item) (kv : List Char × Val) : Bool :=
  match List.lookup kv.1 pri_item with
  | some pv => decide (kv.2 ≠ pv ∧ kv.2 ≠ Val.vnull ∧ pv ≠ Val.vnull)
  | none => false

/-- Witness data: the `Status` column as parsed from the DOM source. -/
def statusHtmlItem : Item :=
  [( "name".toList, Val.vstr "Status".toList), ( "data_type".toList, Val.vstr "varchar".toList)]

/-- Witness data: the `Status` column as parsed from the text source. -/
def statusPdfItem : Item :=
  [( "name".toList, Val.vstr "Status".toList), ( "data_type".toList, Val.vstr "varchar(10)".toList)]

/-- Witness data: the conflict warning the merger emits for the
`Status` column. -/
def statusConflictMsg : List Char :=
  conflict_msg "column".toList (Val.vstr "Status".toList) "dbo.Orders".toList
    "data_type".toList (Val.vstr "varchar".toList) (Val.vstr "varchar(10)".toList)
    "html".toList "pdf".toList

/-- Witness data: a one-column parsed section. -/
def c2Section : ParsedSection :=
  { columns := [ [( "name".toList, Val.vstr "Id".toList), ( "data_type".toList, Val.vstr "int".toList)] ]
    provenance := "pdf".toList }

/-- The tokens `parse_boolean` maps to `True`. -/
def trueTokens : List (List Char) := [ "yes".toList, "true".toList, "1".toList, "y".toList ]

/-- Witness data: a PDF-side section for the case-sensitivity
counterexample. -/
def c9PdfSection : ParsedSection :=
  { columns := [ [( "name".toList, Val.vstr "Id".toList)] ], provenance := "pdf".toList }

/-- Witness data: an HTML-side section for the case-sensitivity
counterexample. -/
def c9HtmlSection : ParsedSection :=
  { columns := [ [( "name".toList, Val.vstr "Id".toList)] ], provenance := "html".toList }


/-- One data line of `parse_column_section` (src/extractor/core.py): the
boilerplate filter, the whitespace tokenization, and the conditional
fields (`length`, `nullable`, identity seed/increment, `default`),
appended in the source's insertion order.  `none` models Python's
`continue`. -/
def parse_column_line (line : List Char) : Option Item :=
  if line.isEmpty || hasPre "Page".toList line || hasPre "Copyright".toList line
      || hasSub "OLTP DB".toList line then none
  else
    let parts := splitWsAny line
    if parts.length < 3 then none
    else
      let di := (List.range parts.length).find? (fun i => decide (1 < i) && isDigitsL (parts.getD i []))
      let lenField : Item := match di with
        | some i => [( "length".toList, Val.vnat (digitsToNat (parts.getD i [])))]
        | none => []
      let dropped := match di with
        | some i => parts.drop (i + 1)
        | none => parts
      let nullField : Item :=
        if dropped.contains ( "True".toList) || dropped.contains ( "False".toList) then
          [( "nullable".toList, Val.vbool (dropped.contains ( "True".toList)))]
        else []
      let identField : Item := match di with
        | some i =>
          if i + 1 < parts.length then
            let remaining := joinSep [ ' ' ] (parts.drop (i + 1))
            if hasSub [ '-' ] remaining && remaining.any (fun c => c.isDigit) then
              let ip := splitChar '-' remaining
              if ip.length ≥ 2 && isDigitsL (trimL (ip.headD [])) then
                [( "identity_seed".toList, Val.vstr (trimL (ip.headD []))),
                 ( "identity_increment".toList, Val.vstr (trimL ((ip.drop 1).headD [])))]
              else []
            else []
          else []
        | none => []
      let defField : Item :=
        if hasSub ( "((".toList) line && hasSub ( "))".toList) line then
          let ds := (findSub ( "((".toList) line).getD 0
          let de := match findSub ( "))".toList) (line.drop ds) with
            | some j => ds + j + 2
            | none => 1
          [( "default".toList, Val.vstr ((line.drop ds).take (de - ds)))]
        else []
      some ([( "name".toList, Val.vstr (parts.headD [])),
             ( "data_type".toList, Val.vstr ((parts.drop 1).headD []))]
            ++ lenField ++ nullField ++ identField ++ defField)

/-- `parse_column_section` (src/extractor/core.py): strip and drop blank
lines, locate the header line (`Data Type`/`Allow Nulls`, falling back to
`Key Name`), then parse every subsequent data line. -/
def parse_column_section (column_text : List Char) : List Item :=
  if column_text.isEmpty then []
  else
    let lines := ((splitChar '\n' column_text).map trimL).filter (fun l => !l.isEmpty)
    let data_lines :=
      match lines.findIdx? (fun l => hasSub ( "Data Type".toList) l || hasSub ( "Allow Nulls".toList) l) with
      | some i => lines.drop (i + 1)
      | none =>
        match lines.findIdx? (fun l => hasSub ( "Key Name".toList) l) with
        | some i => lines.drop (i + 1)
        | none => lines
    data_lines.filterMap parse_column_line

def c8Header : List Char := "Key Name Data Type (Bytes) Allow Nulls Identity Default".toList

def c8LinePre : List Char := "IsActive bit 1 False ".toList


/-- The `next_section_markers` regex pattern strings of `_parse_section`
(src/extractor/pdf_parser.py), each paired with the section name it
matches. -/
def sectionMarkers : List (List Char × List Char) :=
  [( "^\\s*Columns\\s*$".toList, "Columns".toList),
   ( "^\\s*Indexes\\s*$".toList, "Indexes".toList),
   ( "^\\s*Foreign Keys\\s*$".toList, "Foreign Keys".toList),
   ( "^\\s*Computed Columns\\s*$".toList, "Computed Columns".toList)]

/-- A line matched by `^\s*NAME\s*$` (IGNORECASE): its stripped text
equals the name up to letter case. -/
def soleLine (name l : List Char) : Bool :=
  lowerL (trimL l) == lowerL name

/-- The end markers `_parse_section` actually searches for: a marker is
skipped when the lowered requested section name occurs inside the
lowered marker *pattern string* (`section_name.lower() in marker.lower()`)
— so for `Columns` the pattern `^\s*computed columns\s*$` is skipped
too, not just the section's own marker. -/
def active_markers (section_name : List Char) : List (List Char × List Char) :=
  sectionMarkers.filter (fun m => !hasSub (lowerL section_name) (lowerL m.1))

/-- A line that ends the requested section: a sole-name line of one of
the non-skipped markers. -/
def is_end_marker (section_name l : List Char) : Bool :=
  (active_markers section_name).any (fun m => soleLine m.2 l)

/-- `PdfTextParser._parse_section` (src/extractor/pdf_parser.py).  The
source runs `re.search(r'^\s*NAME\s*$', text, IGNORECASE | MULTILINE)`
for the header and each end marker over the raw definition text and
returns `text[start:end].strip()`.  Because `^`/`$` in MULTILINE mode
anchor exactly at `'\n'` boundaries, `\s*` absorbs only whitespace, and
the result is stripped, that search is equivalent to this
line-structured form: the section starts after the first line whose
stripped text equals the section name (case-insensitively), ends before
the first subsequent such line of a non-skipped marker (default: end of
text), and the lines strictly between are joined and stripped. -/
def parse_section (section_name definition_text : List Char) : Option (List Char) :=
  let ls := splitChar '\n' definition_text
  match ls.findIdx? (fun l => soleLine section_name l) with
  | none => none
  | some i =>
    let rest := ls.drop (i + 1)
    let j := (rest.findIdx? (fun l => is_end_marker section_name l)).getD rest.length
    some (trimL (joinLines (rest.take j)))

/-- Modelled from the claim's words (C4): the end boundary is the
nearest subsequent line consisting solely of one of the OTHER THREE
section names. -/
def parse_section_claim (section_name definition_text : List Char) : Option (List Char) :=
  let ls := splitChar '\n' definition_text
  match ls.findIdx? (fun l => soleLine section_name l) with
  | none => none
  | some i =>
    let rest := ls.drop (i + 1)
    let others := sectionMarkers.filter (fun m => !(lowerL m.2 == lowerL section_name))
    let j := (rest.findIdx? (fun l => others.any (fun m => soleLine m.2 l))).getD rest.length
    some (trimL (joinLines (rest.take j)))


/-- Characters matched by regex `\w` (ASCII range). -/
def isWordChar (c : Char) : Bool :=
  c.isAlpha || c.isDigit || c = '_'

/-- Regular expressions, as used by the source's `re` patterns:
single-character classes, concatenation, prioritized alternation,
greedy star, and numbered capture groups. -/
inductive Rx where
  | eps : Rx
  | cls : (Char → Bool) → Rx
  | seq : Rx → Rx → Rx
  | alt : Rx → Rx → Rx
  | star : Rx → Rx
  | grp : Nat → Rx → Rx

/-- Greedy option `X?`: try the present branch first, as Python does. -/
def Rx.opt (r : Rx) : Rx := Rx.alt r Rx.eps

/-- `X+` as `X X*`. -/
def Rx.more (r : Rx) : Rx := Rx.seq r (Rx.star r)

/-- A case-insensitive literal. -/
def Rx.litCI (s : List Char) : Rx :=
  s.foldr (fun c acc => Rx.seq (Rx.cls (fun x => x.toLower = c.toLower)) acc) Rx.eps

/-- Captured groups: group number paired with the captured text. -/
abbrev RxCaps := List (Nat × List Char)

/-- Backtracking matcher in continuation-passing style with explicit
fuel, implementing Python `re` semantics: leftmost alternative first,
greedy quantifiers with backtracking (a star iteration must consume
input, which holds for every star in the embedded patterns). -/
def rxRun : Nat → Rx → List Char → RxCaps → (List Char → RxCaps → Option RxCaps) → Option RxCaps
  | 0, _, _, _, _ => none
  | _ + 1, Rx.eps, s, caps, k => k s caps
  | _ + 1, Rx.cls f, s, caps, k =>
    match s with
    | [] => none
    | c :: rest => if f c then k rest caps else none
  | fuel + 1, Rx.seq a b, s, caps, k =>
    rxRun fuel a s caps (fun s2 c2 => rxRun fuel b s2 c2 k)
  | fuel + 1, Rx.alt a b, s, caps, k =>
    match rxRun fuel a s caps k with
    | some r => some r
    | none => rxRun fuel b s caps k
  | fuel + 1, Rx.star r, s, caps, k =>
    match rxRun fuel r s caps
        (fun s2 c2 =>
          if s2.length < s.length then rxRun fuel (Rx.star r) s2 c2 k else none) with
    | some res => some res
    | none => k s caps
  | fuel + 1, Rx.grp n r, s, caps, k =>
    rxRun fuel r s caps (fun s2 c2 => k s2 ((n, s.take (s.length - s2.length)) :: c2))

/-- `re.match`: anchored at the start, the rest of the string is free. -/
def rxMatch (r : Rx) (s : List Char) : Option RxCaps :=
  rxRun ((s.length + 20) * 50) r s [] (fun _ caps => some caps)

/-- `re.search`: try each start position from the left. -/
def rxSearch (r : Rx) : List Char → Option RxCaps
  | [] => rxMatch r []
  | c :: rest =>
    match rxMatch r (c :: rest) with
    | some caps => some caps
    | none => rxSearch r rest

/-- One step of `re.split(r'\s{2,}', ...)`, processing right to left.
State: the pieces of the processed suffix, plus the pending whitespace
run touching its left edge. -/
def splitWs2Step (c : Char) (acc : List (List Char) × List Char) :
    List (List Char) × List Char :=
  if isWSChar c then (acc.1, c :: acc.2)
  else
    if acc.2.length ≥ 2 then ([c] :: acc.1, [])
    else ((c :: acc.2 ++ acc.1.headD []) :: acc.1.tail, [])

/-- `re.split(r'\s{2,}', line)`: split on runs of two or more
whitespace characters (single whitespace stays inside a piece). -/
def splitWs2 (s : List Char) : List (List Char) :=
  let st := s.foldr splitWs2Step ([[]], [])
  if st.2.length ≥ 2 then [] :: st.1
  else match st.1 with
    | [] => [st.2]
    | p :: ps => (st.2 ++ p) :: ps

/-- `re.sub(r'\(ASC\)|\(DESC\)', '', s)`: delete every `(ASC)` /
`(DESC)` occurrence, scanning left to right (fuel: one step per
character). -/
def removeAscDescAux : Nat → List Char → List Char
  | 0, s => s
  | _ + 1, [] => []
  | fuel + 1, c :: rest =>
    if hasPre ( "(ASC)".toList) (c :: rest) then removeAscDescAux fuel ((c :: rest).drop 5)
    else if hasPre ( "(DESC)".toList) (c :: rest) then removeAscDescAux fuel ((c :: rest).drop 6)
    else c :: removeAscDescAux fuel rest

/-- `re.sub(r'\(ASC\)|\(DESC\)', '', s)`. -/
def remove_asc_desc (s : List Char) : List Char :=
  removeAscDescAux (s.length + 1) s

/-- Python `a or b` over optional strings: `a` wins when it is a
non-empty string, otherwise the result is `b` as-is. -/
def pyOrStr (a b : Option (List Char)) : Option (List Char) :=
  match a with
  | some s => if s.isEmpty then b else some s
  | none => b

/-- A Python value that is a string or `None`. -/
def pyOptVal : Option (List Char) → Val
  | some s => Val.vstr s
  | none => Val.vnull


/-- The fallback pattern of `_parse_indexes`
(`^((?:PK|UK)?\s*)?([^\s]+)\s+([^(]+(?:\([^)]*\))?)\s*(YES|NO|Y|N|UNIQUE)?\s*(\w+)?`,
IGNORECASE), encoded group by group. -/
def rxWS : Rx := Rx.cls isWSChar

/-- Group 1: `((?:PK|UK)?\s*)?`. -/
def index_rx_g1 : Rx :=
  Rx.opt (Rx.grp 1 (Rx.seq (Rx.opt (Rx.alt (Rx.litCI "PK".toList) (Rx.litCI "UK".toList)))
                           (Rx.star rxWS)))

/-- Group 2: `([^\s]+)`. -/
def index_rx_g2 : Rx :=
  Rx.grp 2 (Rx.more (Rx.cls (fun c => !isWSChar c)))

/-- Group 3: `([^(]+(?:\([^)]*\))?)`. -/
def index_rx_g3 : Rx :=
  Rx.grp 3 (Rx.seq (Rx.more (Rx.cls (fun c => c ≠ '(')))
                   (Rx.opt (Rx.seq (Rx.cls (fun c => c = '('))
                           (Rx.seq (Rx.star (Rx.cls (fun c => c ≠ ')')))
                                   (Rx.cls (fun c => c = ')'))))))

/-- Group 4: `(YES|NO|Y|N|UNIQUE)?`. -/
def index_rx_g4 : Rx :=
  Rx.opt (Rx.grp 4 (Rx.alt (Rx.litCI "YES".toList)
                   (Rx.alt (Rx.litCI "NO".toList)
                   (Rx.alt (Rx.litCI "Y".toList)
                   (Rx.alt (Rx.litCI "N".toList) (Rx.litCI "UNIQUE".toList))))))

/-- Group 5: `(\w+)?`. -/
def index_rx_g5 : Rx :=
  Rx.opt (Rx.grp 5 (Rx.more (Rx.cls isWordChar)))

/-- The fallback pattern of `_parse_indexes`
(`^((?:PK|UK)?\s*)?([^\s]+)\s+([^(]+(?:\([^)]*\))?)\s*(YES|NO|Y|N|UNIQUE)?\s*(\w+)?`,
IGNORECASE), assembled group by group. -/
def index_fallback_rx : Rx :=
  Rx.seq index_rx_g1
    (Rx.seq index_rx_g2
      (Rx.seq (Rx.more rxWS)
        (Rx.seq index_rx_g3
          (Rx.seq (Rx.star rxWS)
            (Rx.seq index_rx_g4
              (Rx.seq (Rx.star rxWS) index_rx_g5))))))

/-- The multi-space tier of `_parse_indexes` on one data line
(`parts = re.split(r'\s{2,}', line)`, `len(parts) >= 2`). -/
def parse_index_line_main (parts : List (List Char)) : Item :=
  let name := parts.headD []
  let key_cols := (parts.drop 1).headD []
  let is_primary := hasSub ( "PK".toList) name || hasPre ( "PK_".toList) name
  let is_unique := hasSub ( "UK".toList) name || hasPre ( "UQ_".toList) name || is_primary
  let third := upperL ((parts.drop 2).headD [])
  let uniq2 :=
    if parts.length > 2 then
      if third == "YES".toList || third == "Y".toList || third == "UNIQUE".toList then true
      else if third == "NO".toList || third == "N".toList then false
      else is_unique
    else is_unique
  let type1 : Option (List Char) :=
    if parts.length > 2 then
      if third == "YES".toList || third == "Y".toList || third == "UNIQUE".toList then none
      else if third == "NO".toList || third == "N".toList then none
      else some ((parts.drop 2).headD [])
    else none
  let type2 : Option (List Char) :=
    if parts.length > 3 then some ((parts.drop 3).headD []) else type1
  [( "name".toList, Val.vstr name),
   ( "key_columns".toList, Val.vstr key_cols),
   ( "is_unique".toList, Val.vbool uniq2),
   ( "is_primary".toList, Val.vbool is_primary)]
  ++ (match type2 with
      | some t => [( "type".toList, Val.vstr t)]
      | none => [])

/-- The regex-fallback tier of `_parse_indexes` on one data line. -/
def parse_index_line_fallback (line : List Char) : Option Item :=
  match rxMatch index_fallback_rx line with
  | none => none
  | some caps =>
    let key_type := List.lookup 1 caps
    let name := (List.lookup 2 caps).getD []
    let key_columns := (List.lookup 3 caps).getD []
    let unique := List.lookup 4 caps
    let idx_type := List.lookup 5 caps
    let key_type_has := fun (t : List Char) =>
      match key_type with
      | some kt => !kt.isEmpty && hasSub t (upperL kt)
      | none => false
    let is_unique :=
      match unique with
      | some u => if u.isEmpty then key_type_has ( "UK".toList) else (parse_boolean (some u)).getD false
      | none => key_type_has ( "UK".toList)
    some [( "name".toList, Val.vstr name),
          ( "key_columns".toList, Val.vstr (trimL key_columns)),
          ( "is_unique".toList, Val.vbool is_unique),
          ( "type".toList, pyOptVal (idx_type.map trimL)),
          ( "is_primary".toList, Val.vbool (key_type_has ( "PK".toList)))]

/-- One data line of `_parse_indexes`: skip very short lines, use the
multi-space tier when it yields at least two parts, else the regex
fallback. -/
def parse_index_line (line : List Char) : Option Item :=
  if line.length < 5 then none
  else
    let parts := splitWs2 line
    if parts.length ≥ 2 then some (parse_index_line_main parts)
    else parse_index_line_fallback line

/-- The `key_column_list` post-processing of `_parse_indexes`: when
`key_columns` is a non-empty string, strip `(ASC)`/`(DESC)` qualifiers,
split on commas and strip each column name. -/
def add_key_column_list (it : Item) : Item :=
  match List.lookup ( "key_columns".toList) it with
  | some (Val.vstr s) =>
    if s.isEmpty then it
    else it ++ [( "key_column_list".toList,
                  Val.vlist ((splitChar ',' (remove_asc_desc s)).map trimL))]
  | _ => it

/-- `PdfTextParser._parse_indexes` (src/extractor/pdf_parser.py). -/
def parse_indexes (definition_text : List Char) : List Item :=
  match parse_section ( "Indexes".toList) definition_text with
  | none => []
  | some section_text =>
    let ls := splitChar '\n' section_text
    let data_lines : List (List Char) :=
      match ls.findIdx? (fun l =>
          !(trimL l).isEmpty && hasSub ( "name".toList) (lowerL (trimL l))
            && hasSub ( "key columns".toList) (lowerL (trimL l))) with
      | some i => ((ls.drop (i + 1)).map trimL).filter (fun l => !l.isEmpty)
      | none => (ls.map trimL).filter
          (fun l => !l.isEmpty && !hasPre ( "Indexes".toList) l)
    (data_lines.filterMap parse_index_line).map add_key_column_list

/-- `HtmlDomParser._normalize_row_data` for `table_type == "indexes"`
(src/extractor/html_parser.py), over the row dictionary of
header-name/cell-text pairs. -/
def normalize_index_row (row_data : List (List Char × List Char)) : Option Item :=
  let nameO := pyOrStr (List.lookup ( "name".toList) row_data)
                       (List.lookup ( "index_name".toList) row_data)
  match nameO with
  | none => none
  | some name =>
    if name.isEmpty then none
    else
      let key_columns := pyOrStr (List.lookup ( "key_columns".toList) row_data)
                                 (List.lookup ( "columns".toList) row_data)
      let is_primary := hasSub ( "PK".toList) name || hasPre ( "PK_".toList) name
      let is_unique : Val :=
        if is_primary || hasSub ( "UK".toList) name || hasPre ( "UQ_".toList) name then
          Val.vbool true
        else
          match parse_boolean (pyOrStr (List.lookup ( "is_unique".toList) row_data)
                                       (List.lookup ( "unique".toList) row_data)) with
          | some b => Val.vbool b
          | none => Val.vnull
      let base : Item :=
        [( "name".toList, Val.vstr name),
         ( "key_columns".toList, pyOptVal key_columns),
         ( "is_unique".toList, is_unique),
         ( "is_primary".toList, Val.vbool is_primary),
         ( "type".toList, pyOptVal (pyOrStr (List.lookup ( "type".toList) row_data)
                                            (List.lookup ( "index_type".toList) row_data)))]
      match key_columns with
      | some kc =>
        if kc.isEmpty then some base
        else some (base ++ [( "key_column_list".toList,
            Val.vlist ((splitChar ',' (remove_asc_desc kc)).map trimL))])
      | none => some base

/-- The TOC line pattern `(\[?\w+\]?\.\[?\w+\]?)\s*[\. ]+\s*(\d+)` of
`_find_and_parse_toc`, encoded constructor by constructor. -/
def toc_line_rx : Rx :=
  Rx.seq
    (Rx.grp 1 (Rx.seq (Rx.opt (Rx.cls (fun c => c = '[')))
              (Rx.seq (Rx.more (Rx.cls isWordChar))
              (Rx.seq (Rx.opt (Rx.cls (fun c => c = ']')))
              (Rx.seq (Rx.cls (fun c => c = '.'))
              (Rx.seq (Rx.opt (Rx.cls (fun c => c = '[')))
              (Rx.seq (Rx.more (Rx.cls isWordChar))
                      (Rx.opt (Rx.cls (fun c => c = ']'))))))))))
    (Rx.seq (Rx.star (Rx.cls isWSChar))
    (Rx.seq (Rx.more (Rx.cls (fun c => c = '.' || c = ' ')))
    (Rx.seq (Rx.star (Rx.cls isWSChar))
            (Rx.grp 2 (Rx.more (Rx.cls Char.isDigit))))))

/-- `toc_line_regex.search(line)` followed by `match.groups()` and
`int(page_num)`. -/
def matchTocLine (line : List Char) : Option (List Char × Nat) :=
  match rxSearch toc_line_rx line with
  | none => none
  | some caps =>
    match List.lookup 1 caps, List.lookup 2 caps with
    | some g1, some g2 => some (g1, digitsToNat g2)
    | _, _ => none

/-- The line loop of one TOC page: append every regex match, stopping
after (not before) a line that contains `Views`. -/
def tocLinesGo : List (List Char) → List (List Char × Nat)
  | [] => []
  | l :: ls =>
    let e := match matchTocLine l with
      | some (g1, n) => [(clean_table_name g1, n)]
      | none => []
    if hasSub ( "Views".toList) l then e
    else e ++ tocLinesGo ls

/-- Insertion of one entry behind every entry with a strictly smaller
page number, i.e. before the first entry whose page is equal or
greater. Under the `foldr` below each entry is inserted into the sorted
list of the entries that follow it in the input, so entries with equal
pages keep their input order — exactly Python's stable
`list.sort(key=item[1])`. -/
def insortPage (x : List Char × Nat) : List (List Char × Nat) → List (List Char × Nat)
  | [] => [x]
  | y :: ys => if y.2 < x.2 then y :: insortPage x ys else x :: y :: ys

/-- Stable sort by declared page number, ascending. -/
def sortByPage (l : List (List Char × Nat)) : List (List Char × Nat) :=
  l.foldr insortPage []

/-- `PdfTextParser._find_and_parse_toc` (src/extractor/pdf_parser.py):
split on the page delimiter, look for the `Table of Contents` marker in
pages 1..20, collect the regex matches of up to 10 TOC pages (a `Views`
line stops only the page's own line loop), and sort by page number.
No de-duplication is performed. -/
def find_and_parse_toc (text : List Char) : List (List Char × Nat) :=
  let pages := splitOnSub ( "--- Page ".toList) text
  let candidates := List.range' 1 (min 21 pages.length - 1)
  match candidates.find? (fun i => hasSub ( "Table of Contents".toList) (pages.getD i [])) with
  | none => []
  | some tocStart =>
    let pageIdxs := List.range' tocStart (min (tocStart + 10) pages.length - tocStart)
    let collected := pageIdxs.foldl (fun acc idx => acc ++ tocLinesGo (splitlinesL (pages.getD idx []))) []
    sortByPage collected

/-- `PDF_PAGE_OFFSET` (src/extractor/pdf_parser.py line 14). -/
def PDF_PAGE_OFFSET : Nat := 2

/-- `MAX_PAGES_PER_TABLE_DEF` (pdf_parser.py line 15). -/
def MAX_PAGES_PER_TABLE_DEF : Nat := 5

/-- Decimal digits of a natural number (Python `str(n)` for `n >= 0`). -/
def natDigits (n : Nat) : List Char :=
  Nat.toDigits 10 n

/-- Python `str(i)` for the int `i` (used for the f-string interpolation
`{pdf_page_num - PDF_PAGE_OFFSET}` in `_is_header_or_footer`, which can
be negative for the first two file pages). -/
def intDigits (i : Int) : List Char :=
  if i < 0 then '-' :: natDigits i.natAbs else natDigits i.toNat

/-- `re.match(rf'^page\s+{num}\s+of\s+\d+', s)` as a Boolean, where
`num` is the interpolated page-number literal: after the literal `page`
each `\s+` is a maximal non-empty whitespace run (no backtracking is
needed because the following literal never starts with whitespace). -/
def matchPageOf (num s : List Char) : Bool :=
  if hasPre ( "page".toList) s then
    let r1 := s.drop 4
    let r2 := r1.dropWhile isWSChar
    if r1.length = r2.length then false
    else if hasPre num r2 then
      let r3 := r2.drop num.length
      let r4 := r3.dropWhile isWSChar
      if r3.length = r4.length then false
      else if hasPre ( "of".toList) r4 then
        let r5 := r4.drop 2
        let r6 := r5.dropWhile isWSChar
        if r5.length = r6.length then false
        else match r6 with
          | c :: _ => c.isDigit
          | [] => false
      else false
    else false
  else false

/-- `re.match(r'^page\s+\d+', s)` as a Boolean. -/
def matchPageNum (s : List Char) : Bool :=
  if hasPre ( "page".toList) s then
    let r1 := s.drop 4
    let r2 := r1.dropWhile isWSChar
    if r1.length = r2.length then false
    else match r2 with
      | c :: _ => c.isDigit
      | [] => false
  else false

/-- `PdfTextParser._is_header_or_footer` (pdf_parser.py lines 351-364):
page-number patterns on the stripped lowered line, then the two document
title/footer substring tests. -/
def is_header_or_footer (line : List Char) (pdf_page_num : Nat) : Bool :=
  let ll := lowerL (trimL line)
  matchPageOf (intDigits ((pdf_page_num : Int) - (PDF_PAGE_OFFSET : Int))) ll
  || matchPageNum ll
  || hasSub ( "caretend oltp db data dictionary".toList) ll
  || hasSub ( "copyright".toList) ll

/-- `table_name.split('.', 1) if '.' in table_name else ('dbo', table_name)`
(pdf_parser.py line 235): split at the first dot only. -/
def split1dot (name : List Char) : List Char × List Char :=
  match name.findIdx? (fun c => c = '.') with
  | some i => (name.take i, name.drop (i + 1))
  | none => ( "dbo".toList, name)

/-- `f"[{schema}].[{table}]"`. -/
def mkBracketed (schema table : List Char) : List Char :=
  '[' :: schema ++ ( "].[".toList) ++ table ++ [ ']' ]

/-- `f"{schema}.{table}"`. -/
def mkPlain (schema table : List Char) : List Char :=
  schema ++ '.' :: table

/-- The constant inputs of the page-scanning loop of
`_extract_table_definition_section`: the two start-marker formats, the
lowered name parts for the fallback containment test, and the end
markers derived from the next TOC entry (when there is one). -/
structure ScanCtx where
  bracketed : List Char
  plain : List Char
  schemaLower : List Char
  tableLower : List Char
  nextMarkers : Option (List Char × List Char)

/-- The mutable state of the scanning loop: `actual_start_page_idx`
(`none` while `definition_started` is false), `definition_ended`, and
`full_text_lines`. -/
structure ScanSt where
  startedAt : Option Nat
  ended : Bool
  lns : List (List Char)

/-- The start-marker test of pdf_parser.py lines 284-291: bracketed or
plain format as substring of the stripped line, else both lowered name
parts as substrings of the lowered stripped line. -/
def found_start_marker (ctx : ScanCtx) (stripped : List Char) : Bool :=
  hasSub ctx.bracketed stripped || hasSub ctx.plain stripped
  || (hasSub ctx.schemaLower (lowerL stripped) && hasSub ctx.tableLower (lowerL stripped))

/-- The end-marker test of pdf_parser.py lines 310-311 (`if next_table
and (...)`): no next table means no end marker. -/
def hit_next_table (ctx : ScanCtx) (stripped : List Char) : Bool :=
  match ctx.nextMarkers with
  | some nm => hasSub nm.1 stripped || hasSub nm.2 stripped
  | none => false

/-- One iteration of the inner line loop (pdf_parser.py lines 278-321).
A `definition_ended` state is final: Python has broken out of the line
loop, so remaining lines of the page are untouched. -/
def processLine (ctx : ScanCtx) (pageIdx : Nat) (st : ScanSt) (line : List Char) : ScanSt :=
  if st.ended then st
  else
    let stripped := trimL line
    match st.startedAt with
    | none =>
      if found_start_marker ctx stripped then
        { startedAt := some pageIdx, ended := false, lns := st.lns ++ [line] }
      else st
    | some _ =>
      if hit_next_table ctx stripped then { st with ended := true }
      else if is_header_or_footer line pageIdx then st
      else { st with lns := st.lns ++ [line] }

/-- The line loop over one page. -/
def processPage (ctx : ScanCtx) (pages : List (List Char)) (i : Nat) (st : ScanSt) : ScanSt :=
  (splitlinesL (pages.getD i [])).foldl (processLine ctx i) st

/-- The page loop (pdf_parser.py lines 260-333): stop after a page when
the definition ended there, or when it has started and the page index
reached `file_page_idx + MAX_PAGES_PER_TABLE_DEF`. -/
def scanPages (ctx : ScanCtx) (pages : List (List Char)) (filePageIdx : Nat) :
    List Nat → ScanSt → ScanSt
  | [], st => st
  | i :: rest, st =>
    if pages.length ≤ i then st
    else
      let st2 := processPage ctx pages i st
      if st2.ended then st2
      else if st2.startedAt.isSome && decide (filePageIdx + MAX_PAGES_PER_TABLE_DEF ≤ i) then st2
      else scanPages ctx pages filePageIdx rest st2

/-- The scan context built by `_extract_table_definition_section` for a
given table: markers from the table name, end markers from the TOC entry
after `tableIdx` (Python: `current_table_index + 1 < len(toc_entries)`). -/
def mkScanCtx (tocEntries : List (List Char × Nat)) (tableIdx : Nat)
    (tableName : List Char) : ScanCtx :=
  let sp := split1dot tableName
  let nextMarkers : Option (List Char × List Char) :=
    match (tocEntries.drop (tableIdx + 1)).head? with
    | some nx =>
      let nsp := split1dot nx.1
      some (mkBracketed nsp.1 nsp.2, mkPlain nsp.1 nsp.2)
    | none => none
  ⟨mkBracketed sp.1 sp.2, mkPlain sp.1 sp.2, lowerL sp.1, lowerL sp.2, nextMarkers⟩

/-- The scan state after the full page loop: window
`[max 0 (file_page_idx - 2), min (len pages) (file_page_idx + 3))`
(pdf_parser.py lines 256-258, `search_range = 2`). -/
def runScan (text : List Char) (tocEntries : List (List Char × Nat)) (tableIdx : Nat)
    (tableName : List Char) (docPageNum : Nat) : ScanSt :=
  let pages := splitOnSub ( "--- Page ".toList) text
  let filePageIdx := docPageNum + PDF_PAGE_OFFSET
  let searchStart := filePageIdx - 2
  let searchEnd := min pages.length (filePageIdx + 3)
  scanPages (mkScanCtx tocEntries tableIdx tableName) pages filePageIdx
    (List.range' searchStart (searchEnd - searchStart)) ⟨none, false, []⟩

/-- `PdfTextParser._extract_table_definition_section` (pdf_parser.py
lines 209-349): out-of-range guard, page-window scan, then
`(None, None)` when no start marker was found or no line was collected,
else the joined lines and the 0-indexed page where the marker was found. -/
def extract_table_definition_section (text : List Char)
    (tocEntries : List (List Char × Nat)) (tableIdx : Nat)
    (tableName : List Char) (docPageNum : Nat) : Option (List Char) × Option Nat :=
  let pages := splitOnSub ( "--- Page ".toList) text
  if pages.length ≤ docPageNum + PDF_PAGE_OFFSET then (none, none)
  else
    let st := runScan text tocEntries tableIdx tableName docPageNum
    match st.startedAt with
    | none => (none, none)
    | some a => if st.lns.isEmpty then (none, none) else (some (joinLines st.lns), some a)

/-- `expected_page_idx = doc_page_num + PDF_PAGE_OFFSET - 1`
(pdf_parser.py line 79 / 298). -/
def expected_page_idx (docPageNum : Nat) : Nat :=
  docPageNum + PDF_PAGE_OFFSET - 1

/-- The drift `actual_page - expected_page_idx` computed by
`PdfTextParser.parse` (line 80) when an actual page was returned. -/
def table_drift (text : List Char) (tocEntries : List (List Char × Nat))
    (tableIdx : Nat) (tableName : List Char) (docPageNum : Nat) : Option Int :=
  match (extract_table_definition_section text tocEntries tableIdx tableName docPageNum).2 with
  | some a => some ((a : Int) - (expected_page_idx docPageNum : Int))
  | none => none

/-- The `drifted_tables` entry `(table_name, expected_page_idx + 1,
actual_page + 1, drift)` recorded by `parse` (lines 73-89): only when
the definition text is truthy and the drift is non-zero. -/
def recorded_drift (text : List Char) (tocEntries : List (List Char × Nat))
    (tableIdx : Nat) (tableName : List Char) (docPageNum : Nat) :
    Option (List Char × Nat × Nat × Int) :=
  match extract_table_definition_section text tocEntries tableIdx tableName docPageNum with
  | (some d, actual) =>
    if d.isEmpty then none
    else
      match actual with
      | some a =>
        let drift : Int := (a : Int) - (expected_page_idx docPageNum : Int)
        if drift = 0 then none
        else some (tableName, expected_page_idx docPageNum + 1, a + 1, drift)
      | none => none
  | (none, _) => none

/-- `parse` treats a table as not found (`continue`, line 73-75) exactly
when the returned definition text is falsy: `None` or empty. -/
def not_found_skipped (text : List Char) (tocEntries : List (List Char × Nat))
    (tableIdx : Nat) (tableName : List Char) (docPageNum : Nat) : Bool :=
  match extract_table_definition_section text tocEntries tableIdx tableName docPageNum with
  | (some d, _) => d.isEmpty
  | (none, _) => true


/-- The concrete 45-page text of the drift example: the `dbo.Orders`
definition sits on file page 44 while the TOC declares document page 40
(file page 42, PDF page 42 one-based). -/
def c7text : List Char :=
  ( "doc".toList) ++
    (List.range' 1 43).foldr
      (fun k acc => ( "--- Page ".toList) ++ natDigits k ++ '\n' :: 'x' :: acc)
      ( "--- Page 44\n[dbo].[Orders]\nId int".toList)

/-- The one-entry TOC of the drift example. -/
def c7toc : List (List Char × Nat) := [(( "dbo.Orders".toList), 40)]

/-- The invariant of the page scan: before the start marker is seen no
line has been collected; afterwards the recorded start page lies in the
scanned index interval and the first collected line is non-empty. -/
def ScanInv (lo hi : Nat) (st : ScanSt) : Prop :=
  (st.startedAt = none → st.lns = []) ∧
  (∀ a, st.startedAt = some a → lo ≤ a ∧ a < hi ∧ st.lns.headD [] ≠ [])

/-! ## Theorems -/

/-- The inner conflict loop appends exactly one warning per conflicting
field of the secondary item, in field order, and nothing else. -/
theorem conflict_fold_spec (it tn pn sn : List Char) (v : Val) (p : Item)
    (l : List (List Char × Val)) :
    ∀ ws, conflict_fold it tn pn sn v p l ws =
      ws ++ (l.filter (isConflictB p)).map
        (fun kv => conflict_msg it v tn kv.1 ((List.lookup kv.1 p).getD Val.vnull) kv.2 pn sn) := by
  induction l with
  | nil => intro ws; simp [conflict_fold]
  | cons kv l ih =>
    intro ws
    rw [conflict_fold]
    cases h : List.lookup kv.1 p with
    | none => simp [h, ih, isConflictB, List.filter]
    | some pv =>
      by_cases hc : kv.2 ≠ pv ∧ kv.2 ≠ Val.vnull ∧ pv ≠ Val.vnull
      · simp [h, hc, ih, isConflictB, List.filter]
      · simp [h, hc, ih, isConflictB, List.filter]

/-- C1: when a table is merged from both sources and a secondary item's
case-insensitive name matches a primary item, the merged list keeps the
primary item's record unchanged (the primary source's field values win),
and the warnings appended are exactly one conflict warning — naming the
item type, the item, the table, the field and both values — for each
field present in both records whose two values are non-null and unequal. -/
theorem c1_conflict_keeps_primary (p s : Item) (tn it idf pn sn : List Char)
    (ws : List (List Char)) (np ns : List Char)
    (h1 : List.lookup idf p = some (Val.vstr np))
    (h2 : List.lookup idf s = some (Val.vstr ns))
    (h3 : lowerL ns = lowerL np) :
    merge_section_items [p] [s] tn it idf ws pn sn =
      ([p],
       ws ++ (s.filter (isConflictB p)).map
         (fun kv => conflict_msg it (Val.vstr ns) tn kv.1
           ((List.lookup kv.1 p).getD Val.vnull) kv.2 pn sn)) := by
  rw [merge_section_items]
  simp only [List.isEmpty_cons, if_false, Bool.false_eq_true]
  rw [merge_items_loop, h2]
  dsimp only
  have hfind : primary_map_find idf [p] (pyLowerVal (Val.vstr ns)) = some p := by
    simp [primary_map_find, List.find?, h1, pyLowerVal, h3]
  rw [hfind]
  rw [merge_items_loop]
  exact congrArg _ (conflict_fold_spec it tn pn sn (Val.vstr ns) p s ws)

/-- C1 witness: with the DOM/HTML source preferred, the `Status` column
(`varchar` from DOM, `varchar(10)` from text) merges to the DOM record —
so `data_type` stays `varchar` — with exactly one warning, which mentions
`Status` and `data_type`. -/
theorem c1_conflict_keeps_primary_witness :
    merge_section_items [statusHtmlItem] [statusPdfItem] "dbo.Orders".toList
        "column".toList "name".toList [] "html".toList "pdf".toList
      = ([statusHtmlItem], [statusConflictMsg])
    ∧ List.lookup ( "data_type".toList) statusHtmlItem = some (Val.vstr "varchar".toList)
    ∧ hasSub ( "Status".toList) statusConflictMsg = true
    ∧ hasSub ( "data_type".toList) statusConflictMsg = true := by
  refine ⟨?_, by decide, by decide, by decide⟩
  rw [c1_conflict_keeps_primary statusHtmlItem statusPdfItem _ _ _ _ _ _
      ( "Status".toList) ( "Status".toList) (by decide) (by decide) (by decide)]
  decide

/-- C2 (amended): a table present in exactly one source is copied
verbatim from that source, with `extraction_source` set to the tag the
code actually writes — `"pdf"` for the text source and `"html"` for the
DOM source — and a table present in both gets `"merged"`. -/
theorem c2_single_source (prefer_html : Bool) (tn : List Char) (s s2 : ParsedSection) :
    merge_table prefer_html tn (some s) none =
      { schema := schema_of tn, table_name := short_name_of tn,
        columns := s.columns, indexes := s.indexes, foreign_keys := s.foreign_keys,
        computed_columns := s.computed_columns,
        extraction_source := "pdf".toList, warnings := [] }
    ∧ merge_table prefer_html tn none (some s) =
      { schema := schema_of tn, table_name := short_name_of tn,
        columns := s.columns, indexes := s.indexes, foreign_keys := s.foreign_keys,
        computed_columns := s.computed_columns,
        extraction_source := "html".toList, warnings := [] }
    ∧ (merge_table prefer_html tn (some s) (some s2)).extraction_source = "merged".toList :=
  ⟨rfl, rfl, rfl⟩

/-- C2 counterexample: a table present only in the text (PDF) source is
tagged `"pdf"`, not `"text_only"`, and one present only in the DOM
(HTML) source is tagged `"html"`, not `"dom_only"`. -/
theorem c2_counterexample :
    (merge_table true "dbo.Orders".toList (some c2Section) none).extraction_source = "pdf".toList
    ∧ "pdf".toList ≠ "text_only".toList
    ∧ (merge_table true "dbo.Orders".toList none (some c2Section)).extraction_source = "html".toList
    ∧ "html".toList ≠ "dom_only".toList := by
  refine ⟨rfl, by decide, rfl, by decide⟩

/-- C6 (amended): `parse_boolean` maps `YES`/`Y`/`1`/`TRUE` (any letter
case, surrounding whitespace ignored) to `True`, and every other string —
including `NO`/`N`/`0`/`FALSE` but also every unrecognized token — to
`False`; only a missing value (`None`) maps to `None`. -/
theorem c6_parse_boolean (s t u : List Char)
    (hs : lowerL (trimL s) ∈ trueTokens)
    (ht : lowerL (trimL t) ∈ [ "no".toList, "n".toList, "0".toList, "false".toList ])
    (hu : lowerL (trimL u) ∉ trueTokens) :
    parse_boolean (some s) = some true
    ∧ parse_boolean (some t) = some false
    ∧ parse_boolean (some u) = some false
    ∧ parse_boolean none = none := by
  refine ⟨?_, ?_, ?_, rfl⟩
  · simpa [parse_boolean, trueTokens] using hs
  · have : lowerL (trimL t) ∉ trueTokens := by
      simp only [List.mem_cons, List.not_mem_nil, or_false] at ht
      rcases ht with h | h | h | h <;> rw [h] <;> decide
    simpa [parse_boolean, trueTokens] using this
  · simpa [parse_boolean, trueTokens] using hu

/-- C6 witness: `" YES "` parses to `True`, `"No"` to `False`, the
unrecognized token `"maybe"` to `False`, and a missing value to `None`. -/
theorem c6_parse_boolean_witness :
    (lowerL (trimL " YES ".toList) ∈ trueTokens)
    ∧ (lowerL (trimL "No".toList) ∈ [ "no".toList, "n".toList, "0".toList, "false".toList ])
    ∧ (lowerL (trimL "maybe".toList) ∉ trueTokens)
    ∧ (parse_boolean (some " YES ".toList) = some true
       ∧ parse_boolean (some "No".toList) = some false
       ∧ parse_boolean (some "maybe".toList) = some false
       ∧ parse_boolean none = none) :=
  ⟨by decide, by decide, by decide,
   c6_parse_boolean ( " YES ".toList) ( "No".toList) ( "maybe".toList)
     (by decide) (by decide) (by decide)⟩

/-- C6 counterexample: the unrecognized token `"maybe"` is mapped to
`False`, not to the `None`/unknown value the claim predicts. -/
theorem c6_counterexample :
    parse_boolean (some "maybe".toList) = some false
    ∧ some false ≠ (none : Option Bool) := by
  exact ⟨by decide, by decide⟩

/-- Looking a key up in an association list built by pairing each key
with a function of itself. -/
theorem lookup_map_key {β : Type} (f : List Char → β) (ks : List (List Char)) (k : List Char) :
    List.lookup k (ks.map (fun t => (t, f t))) = if k ∈ ks then some (f k) else none := by
  induction ks with
  | nil => simp [List.lookup]
  | cons a ks ih =>
    rw [List.map_cons, List.lookup]
    cases h : (k == a) with
    | true =>
      have hk : k = a := eq_of_beq h
      subst hk
      rw [if_pos (List.mem_cons_self k ks)]
    | false =>
      have hne : k ≠ a := by
        intro he; subst he; simp at h
      have hmem : (k ∈ a :: ks) = (k ∈ ks) :=
        propext ⟨fun hm => (List.mem_cons.mp hm).resolve_left hne, fun hm => List.mem_cons_of_mem a hm⟩
      dsimp only
      rw [ih]
      exact if_congr (iff_of_eq hmem.symm) rfl rfl

/-- A key has a binding in an association list iff it is one of the
list's keys. -/
theorem lookup_isSome_iff {β : Type} (l : List (List Char × β)) (k : List Char) :
    (List.lookup k l).isSome = true ↔ k ∈ l.map Prod.fst := by
  induction l with
  | nil => simp [List.lookup]
  | cons kv l ih =>
    obtain ⟨a, b⟩ := kv
    rw [List.map_cons, List.lookup]
    cases h : (k == a) with
    | true =>
      have hk : k = a := eq_of_beq h
      subst hk
      exact ⟨fun _ => List.mem_cons_self k _, fun _ => rfl⟩
    | false =>
      have hne : k ≠ a := by
        intro he; subst he; simp at h
      rw [List.mem_cons, ih]
      exact ⟨fun hm => Or.inr hm, fun hm => hm.resolve_left hne⟩

/-- C9 (amended): the merged output is keyed by the exact `schema.table`
strings of the two input maps — matching between sources is a
case-sensitive string lookup (table names are not lowercase-normalized;
`clean_table_name` only strips brackets and whitespace), so a key is
merged exactly when the identical string appears in both inputs. -/
theorem c9_case_sensitive_keying (prefer_html : Bool)
    (pdf_data html_data : List (List Char × ParsedSection)) (k : List Char) :
    List.lookup k (merge prefer_html pdf_data html_data).2 =
      if (List.lookup k pdf_data).isSome ∨ (List.lookup k html_data).isSome then
        some (merge_table prefer_html k (List.lookup k pdf_data) (List.lookup k html_data))
      else none := by
  unfold merge
  dsimp only
  rw [lookup_map_key]
  have hmem : (k ∈ all_table_keys pdf_data html_data) ↔
      ((List.lookup k pdf_data).isSome = true ∨ (List.lookup k html_data).isSome = true) := by
    unfold all_table_keys
    rw [List.mem_append, List.mem_filter]
    rw [lookup_isSome_iff, lookup_isSome_iff]
    constructor
    · rintro (h | ⟨h, _⟩)
      · exact Or.inl h
      · exact Or.inr h
    · rintro (h | h)
      · exact Or.inl h
      · by_cases hp : k ∈ pdf_data.map Prod.fst
        · exact Or.inl hp
        · refine Or.inr ⟨h, ?_⟩
          simp [List.elem_iff, hp]
  exact if_congr hmem rfl rfl

/-- C9 counterexample: `clean_table_name` preserves letter case, and two
tables whose names differ only in case (`dbo.Orders` from the text
source, `DBO.ORDERS` from the DOM source) are NOT matched: the merge
produces two separate single-source tables and counts zero merged
tables. -/
theorem c9_counterexample :
    clean_table_name " [DBO].[ORDERS] ".toList = "DBO.ORDERS".toList
    ∧ lowerL "DBO.ORDERS".toList = lowerL "dbo.Orders".toList
    ∧ "DBO.ORDERS".toList ≠ "dbo.Orders".toList
    ∧ (merge true [( "dbo.Orders".toList, c9PdfSection)] [( "DBO.ORDERS".toList, c9HtmlSection)]).1.merged_tables = 0
    ∧ (merge true [( "dbo.Orders".toList, c9PdfSection)] [( "DBO.ORDERS".toList, c9HtmlSection)]).2.length = 2
    ∧ (merge true [( "dbo.Orders".toList, c9PdfSection)] [( "DBO.ORDERS".toList, c9HtmlSection)]).2.map
        (fun kv => kv.2.extraction_source) = [ "pdf".toList, "html".toList ] := by
  refine ⟨by decide, by decide, by decide, by decide, by decide, by decide⟩

/-- C10: when the preferred source's item list for a category is empty
and the secondary source's list is non-empty, the merge returns exactly
the secondary list and appends no warning of any kind. -/
theorem c10_empty_primary (secondary : List Item)
    (tn it idf pn sn : List Char) (ws : List (List Char))
    (_hs : secondary ≠ []) :
    merge_section_items [] secondary tn it idf ws pn sn = (secondary, ws) := by
  simp [merge_section_items]

/-- C10 witness: an empty primary list against a single (even nameless)
secondary item returns that item with the warnings list untouched. -/
theorem c10_empty_primary_witness :
    (([ [( "formula".toList, Val.vstr "(a+b)".toList) ] ] : List Item) ≠ []) ∧
    merge_section_items [] [ [( "formula".toList, Val.vstr "(a+b)".toList) ] ]
        "dbo.Orders".toList "computed column".toList "name".toList
        [ "w0".toList ] "html".toList "pdf".toList
      = ([ [( "formula".toList, Val.vstr "(a+b)".toList) ] ], [ "w0".toList ]) :=
  ⟨by decide,
   c10_empty_primary [ [( "formula".toList, Val.vstr "(a+b)".toList) ] ]
     ( "dbo.Orders".toList) ( "computed column".toList) ( "name".toList)
     ( "html".toList) ( "pdf".toList) [ "w0".toList ] (by decide)⟩

theorem hasSub_append_right (n b : List Char) (a : List Char)
    (h : hasSub n b = true) : hasSub n (a ++ b) = true := by
  induction a with
  | nil => simpa using h
  | cons c a ih =>
    rw [List.cons_append, hasSub]
    rw [ih]
    simp

theorem findSub_marker (t : List Char) :
    ∀ a : List Char, hasSub ( "))".toList) (a ++ [ ')' ]) = false →
      findSub ( "))".toList) (a ++ ')' :: ')' :: t) = some a.length
  | [], _ => by simp [findSub, hasPre]
  | c :: a, h => by
    rw [List.cons_append, hasSub] at h
    have h1 : hasPre ( "))".toList) (c :: (a ++ [ ')' ])) = false := by
      rcases Bool.or_eq_false_iff.mp h with ⟨h1, _⟩
      exact h1
    have h2 : hasSub ( "))".toList) (a ++ [ ')' ]) = false := by
      rcases Bool.or_eq_false_iff.mp h with ⟨_, h2⟩
      exact h2
    have hpre : hasPre ( "))".toList) (c :: (a ++ ')' :: ')' :: t)) = false := by
      cases a with
      | nil =>
        simp only [hasPre, List.nil_append] at h1 ⊢
        rcases Bool.and_eq_false_iff.mp h1 with h | h
        · simp [h]
        · simp [hasPre] at h
      | cons x a' =>
        simp only [hasPre, List.cons_append] at h1 ⊢
        rcases Bool.and_eq_false_iff.mp h1 with h | h
        · simp [h]
        · rcases Bool.and_eq_false_iff.mp h with h' | h'
          · simp [h']
          · simp [hasPre] at h'
    have hpre2 : hasPre [ ')' , ')' ] (c :: (a ++ ')' :: ')' :: t)) = false := hpre
    rw [List.cons_append, findSub, if_neg (by simp [hpre2])]
    rw [findSub_marker t a h2]
    simp

theorem splitChar_no_sep (c : Char) (l : List Char) (h : c ∉ l) :
    splitChar c l = [l] := by
  induction l with
  | nil => rfl
  | cons x l ih =>
    have hx : x ≠ c := fun he => h (he ▸ List.mem_cons_self x l)
    have ih' := ih (fun hc => h (List.mem_cons_of_mem x hc))
    rw [splitChar] at ih' ⊢
    simp only [List.foldr_cons]
    rw [ih']
    simp [hx]

theorem splitChar_append_sep (c : Char) (a b : List Char)
    (ha : c ∉ a) (hb : c ∉ b) :
    splitChar c (a ++ c :: b) = [a, b] := by
  induction a with
  | nil =>
    rw [List.nil_append, splitChar]
    simp only [List.foldr_cons]
    have hb' := splitChar_no_sep c b hb
    rw [splitChar] at hb'
    rw [hb']
    simp
  | cons x a ih =>
    have hx : x ≠ c := fun he => ha (he ▸ List.mem_cons_self x a)
    have ih' := ih (fun hc => ha (List.mem_cons_of_mem x hc))
    rw [splitChar] at ih' ⊢
    simp only [List.cons_append, List.foldr_cons]
    rw [ih']
    simp [hx]

theorem trimLeftL_cons (c : Char) (r : List Char) (h : isWSChar c = false) :
    trimLeftL (c :: r) = c :: r := by
  simp [trimLeftL, List.dropWhile, h]

theorem trimRightL_rparen (a : List Char) :
    trimRightL (a ++ [ ')' ]) = a ++ [ ')' ] := by
  simp [trimRightL, List.reverse_append, List.dropWhile, isWSChar]

theorem lookup_append_not_in {β : Type} (k : List Char) (A B : List (List Char × β))
    (h : ∀ kv ∈ A, kv.1 ≠ k) : List.lookup k (A ++ B) = List.lookup k B := by
  induction A with
  | nil => rfl
  | cons kv A ih =>
    have hk : kv.1 ≠ k := h kv (List.mem_cons_self kv A)
    rw [List.cons_append, List.lookup]
    have : (k == kv.1) = false := by
      cases hbe : (k == kv.1) with
      | true => exact absurd (eq_of_beq hbe).symm hk
      | false => rfl
    rw [this]
    exact ih (fun kv2 h2 => h kv2 (List.mem_cons_of_mem kv h2))

theorem c8_parts (d : List Char) :
    splitWsAny ( "IsActive bit 1 False ".toList ++ d) =
      "IsActive".toList :: "bit".toList :: "1".toList :: "False".toList :: splitWsAny d := by
  unfold splitWsAny
  rw [List.foldr_append]
  simp [isWSChar, List.filter]

set_option maxHeartbeats 1000000 in
/-- C8 (amended): for a Columns data line ending in a `((...))` default
expression whose body contains no earlier `))` (so the first `))` after
the `((` is the expression's terminator), the parsed column's `default`
value is exactly, byte for byte, the `((...))` substring of the line,
both enclosing parenthesis pairs included.  (When the body does contain
an inner `))` — e.g. `((getdate()))` — the capture stops at that first
`))` and the round-trip fails; see the counterexample.) -/
theorem c8_default_roundtrip (expr : List Char)
    (h1 : '\n' ∉ expr)
    (h2 : hasSub ( "))".toList) (( "((".toList ++ expr) ++ [ ')' ]) = false)
    (h3 : hasSub ( "OLTP DB".toList) (c8LinePre ++ ( "((".toList ++ expr ++ "))".toList)) = false) :
    (parse_column_section (c8Header ++ '\n' :: (c8LinePre ++ ( "((".toList ++ expr ++ "))".toList)))).map
        (fun it => List.lookup ( "default".toList) it)
      = [some (Val.vstr ( "((".toList ++ expr ++ "))".toList))] := by
  set d : List Char := "((".toList ++ expr ++ "))".toList with hd
  set line : List Char := c8LinePre ++ d with hline
  have hnl : '\n' ∉ line := by
    rw [hline, hd]
    intro hmem
    simp only [List.mem_append] at hmem
    rcases hmem with hx | (hx | hx) | hx
    · revert hx; decide
    · revert hx; decide
    · exact h1 hx
    · revert hx; decide
  have hsplit : splitChar '\n' (c8Header ++ '\n' :: line) = [c8Header, line] :=
    splitChar_append_sep '\n' c8Header line (by decide) hnl
  have htrimH : trimL c8Header = c8Header := by decide
  have htl : trimLeftL line = line := by rw [hline, hd]; rfl
  have hlineP : line = (c8LinePre ++ "((".toList ++ expr ++ [ ')' ]) ++ [ ')' ] := by
    rw [hline, hd]; simp [List.append_assoc]
  have htr : trimRightL line = line := by
    rw [hlineP]; exact trimRightL_rparen _
  have htrim : trimL line = line := by
    unfold trimL; rw [htl, htr]
  have hlineNE : line.isEmpty = false := by rw [hline, hd]; rfl
  have hheadp : (hasSub ( "Data Type".toList) c8Header || hasSub ( "Allow Nulls".toList) c8Header) = true := by decide
  have hskip : (line.isEmpty || hasPre ( "Page".toList) line || hasPre ( "Copyright".toList) line
      || hasSub ( "OLTP DB".toList) line) = false := by
    rw [h3, hlineNE]
    rw [show hasPre ( "Page".toList) line = false from by rw [hline, hd]; rfl]
    rw [show hasPre ( "Copyright".toList) line = false from by rw [hline, hd]; rfl]
    rfl
  have hparts : splitWsAny line = "IsActive".toList :: "bit".toList :: "1".toList
      :: "False".toList :: splitWsAny d := by
    rw [hline]; exact c8_parts d
  rw [parse_column_section]
  rw [if_neg (by rw [show ((c8Header ++ '\n' :: line).isEmpty) = false from rfl]; simp)]
  dsimp only
  rw [hsplit]
  rw [List.map_cons, List.map_cons, List.map_nil, htrimH, htrim]
  rw [List.filter_cons, List.filter_cons, List.filter_nil]
  rw [show (!c8Header.isEmpty) = true from by decide]
  rw [show (!line.isEmpty) = true from by rw [hlineNE]; rfl]
  simp only [if_true]
  rw [List.findIdx?_cons]
  rw [hheadp]
  simp only [if_true]
  simp only [List.drop_succ_cons, List.drop_zero, Nat.zero_add]
  -- facts about the data line needed to evaluate parse_column_line
  have hsub1 : hasSub ( "((".toList) line = true := by rw [hline, hd]; rfl
  have hlineQ : line = (c8LinePre ++ "((".toList ++ expr) ++ "))".toList := by
    rw [hline, hd]; simp [List.append_assoc]
  have hsub2 : hasSub ( "))".toList) line = true := by
    rw [hlineQ]
    exact hasSub_append_right _ _ _ (by decide)
  have hfind1 : findSub ( "((".toList) line = some 21 := by rw [hline, hd]; rfl
  have hdrop : line.drop 21 = d := by rw [hline, hd]; rfl
  have hfind2 : findSub ( "))".toList) d = some (expr.length + 2) := by
    rw [hd]
    have hm := findSub_marker [] ( "((".toList ++ expr) h2
    have h22 : (( "((".toList ++ expr) ++ ')' :: ')' :: ([] : List Char)) =
        ( "((".toList ++ expr ++ "))".toList) := by simp [List.append_assoc]
    rw [h22] at hm
    rw [hm]
    have hlen2 : ( "((".toList ++ expr).length = expr.length + 2 := by
      simp only [List.length_append, show ( "((".toList).length = 2 from rfl]
      omega
    rw [hlen2]
  have hdlen : d.length = expr.length + 4 := by
    rw [hd]; simp [List.length_append]
  rw [List.filterMap_cons]
  rw [parse_column_line]
  rw [if_neg (by rw [hskip]; simp)]
  dsimp only
  rw [hparts]
  rw [if_neg (by simp only [List.length_cons]; omega)]
  rw [hsub1, hsub2]
  simp only [Bool.and_self, if_true]
  rw [hfind1]
  simp only [Option.getD_some]
  rw [hdrop, hfind2]
  rw [show 21 + (expr.length + 2) + 2 - 21 = expr.length + 4 from by omega]
  rw [show expr.length + 4 = d.length from hdlen.symm]
  rw [List.take_length]
  rw [List.filterMap_nil, List.map_cons, List.map_nil]
  congr 1
  refine (lookup_append_not_in _ _ _ ?_).trans ?_
  · intro kv hkv
    simp only [List.mem_append] at hkv
    rcases hkv with ((hk | hk) | hk) | hk
    · simp only [List.mem_cons, List.not_mem_nil, or_false] at hk
      rcases hk with rfl | rfl <;> (dsimp only; decide)
    · split at hk
      · simp only [List.mem_cons, List.not_mem_nil, or_false] at hk
        rw [hk]; dsimp only; decide
      · exact absurd hk (List.not_mem_nil _)
    · split at hk
      · simp only [List.mem_cons, List.not_mem_nil, or_false] at hk
        rw [hk]; dsimp only; decide
      · exact absurd hk (List.not_mem_nil _)
    · split at hk
      · split at hk
        · split at hk
          · split at hk
            · simp only [List.mem_cons, List.not_mem_nil, or_false] at hk
              rcases hk with rfl | rfl <;> (dsimp only; decide)
            · exact absurd hk (List.not_mem_nil _)
          · exact absurd hk (List.not_mem_nil _)
        · exact absurd hk (List.not_mem_nil _)
      · exact absurd hk (List.not_mem_nil _)
  · simp [List.lookup]

/-- C8 witness: the line `IsActive bit 1 False ((1))` round-trips its
default `((1))` exactly. -/
theorem c8_default_roundtrip_witness :
    ('\n' ∉ ( "1".toList : List Char))
    ∧ hasSub ( "))".toList) (( "((".toList ++ "1".toList) ++ [ ')' ]) = false
    ∧ hasSub ( "OLTP DB".toList) (c8LinePre ++ ( "((".toList ++ "1".toList ++ "))".toList)) = false
    ∧ (parse_column_section (c8Header ++ '\n' :: (c8LinePre ++ ( "((".toList ++ "1".toList ++ "))".toList)))).map
        (fun it => List.lookup ( "default".toList) it)
      = [some (Val.vstr ( "((".toList ++ "1".toList ++ "))".toList))] :=
  ⟨by decide, by decide, by decide,
   c8_default_roundtrip ( "1".toList) (by decide) (by decide) (by decide)⟩

/-- C8 counterexample: for the line `Created datetime 8 False ((getdate()))`
the captured default is `((getdate())` — truncated at the first `))` —
which is not byte-for-byte equal to the line's default expression
`((getdate()))`. -/
theorem c8_counterexample :
    (parse_column_section ( "Key Name Data Type (Bytes) Allow Nulls Identity Default\nCreated datetime 8 False ((getdate()))".toList)).map
        (fun it => List.lookup ( "default".toList) it)
      = [some (Val.vstr "((getdate())".toList)]
    ∧ "((getdate())".toList ≠ "((getdate()))".toList := by
  exact ⟨by decide, by decide⟩

theorem splitChar_append_cons (c : Char) (a r : List Char) (ha : c ∉ a) :
    splitChar c (a ++ c :: r) = a :: splitChar c r := by
  induction a with
  | nil =>
    rw [List.nil_append]
    simp [splitChar]
  | cons x a ih =>
    have hx : x ≠ c := fun he => ha (he ▸ List.mem_cons_self x a)
    have ih' := ih (fun hc => ha (List.mem_cons_of_mem x hc))
    rw [splitChar] at ih' ⊢
    simp only [List.cons_append, List.foldr_cons]
    rw [ih']
    simp [hx]

theorem splitChar_joinLines (ls : List (List Char))
    (h : ∀ l ∈ ls, '\n' ∉ l) (hne : ls ≠ []) :
    splitChar '\n' (joinLines ls) = ls := by
  induction ls with
  | nil => exact absurd rfl hne
  | cons l ls ih =>
    cases ls with
    | nil =>
      exact splitChar_no_sep '\n' l (h l (List.mem_cons_self l []))
    | cons l2 ls2 =>
      have hstep : joinLines (l :: l2 :: ls2) = l ++ '\n' :: joinLines (l2 :: ls2) := by
        rw [joinLines, joinSep]
        simp [List.append_assoc, joinLines]
      rw [hstep]
      rw [splitChar_append_cons '\n' l _ (h l (List.mem_cons_self l _))]
      rw [ih (fun x hx => h x (List.mem_cons_of_mem l hx)) (by simp)]

theorem findIdx?_none_of {α : Type} (p : α → Bool) (l : List α) :
    ∀ i, (∀ x ∈ l, p x = false) → List.findIdx? p l i = none := by
  induction l with
  | nil => intro i _; rfl
  | cons x l ih =>
    intro i h
    rw [List.findIdx?_cons]
    rw [h x (List.mem_cons_self x l)]
    simp only [Bool.false_eq_true, if_false]
    exact ih (i + 1) (fun y hy => h y (List.mem_cons_of_mem x hy))

theorem findIdx?_append_none {α : Type} (p : α → Bool) (a b : List α)
    (h : ∀ x ∈ a, p x = false) :
    ∀ i, List.findIdx? p (a ++ b) i = List.findIdx? p b (i + a.length) := by
  induction a with
  | nil => intro i; simp
  | cons x a ih =>
    intro i
    rw [List.cons_append, List.findIdx?_cons]
    rw [h x (List.mem_cons_self x a)]
    simp only [Bool.false_eq_true, if_false]
    rw [ih (fun y hy => h y (List.mem_cons_of_mem x hy)) (i + 1)]
    congr 1
    simp
    omega

theorem findIdx?_cons_true {α : Type} (p : α → Bool) (x : α) (l : List α) (i : Nat)
    (h : p x = true) : List.findIdx? p (x :: l) i = some i := by
  rw [List.findIdx?_cons, h]
  rfl

/-- Helper: when no line of the text is a sole-name line for the
section, the splitter returns None. -/
theorem parse_section_not_found (name : List Char) (lines : List (List Char))
    (hnl : ∀ l ∈ lines, '\n' ∉ l) (hne : lines ≠ [])
    (hall : ∀ l ∈ lines, soleLine name l = false) :
    parse_section name (joinLines lines) = none := by
  unfold parse_section
  dsimp only
  rw [splitChar_joinLines lines hnl hne]
  rw [findIdx?_none_of _ _ 0 hall]

/-- Helper: the splitter returns the trimmed lines strictly between the
first header line and the first subsequent end-marker line. -/
theorem parse_section_bounded (name hdr endl : List Char) (pre mid post : List (List Char))
    (hnl : ∀ l ∈ pre ++ hdr :: (mid ++ endl :: post), '\n' ∉ l)
    (hpre : ∀ l ∈ pre, soleLine name l = false)
    (hhdr : soleLine name hdr = true)
    (hmid : ∀ l ∈ mid, is_end_marker name l = false)
    (hend : is_end_marker name endl = true) :
    parse_section name (joinLines (pre ++ hdr :: (mid ++ endl :: post)))
      = some (trimL (joinLines mid)) := by
  have hne : (pre ++ hdr :: (mid ++ endl :: post)) ≠ [] := by simp
  unfold parse_section
  dsimp only
  rw [splitChar_joinLines _ hnl hne]
  rw [findIdx?_append_none _ pre _ hpre 0]
  rw [findIdx?_cons_true _ _ _ _ hhdr]
  dsimp only
  have hdrop : (pre ++ hdr :: (mid ++ endl :: post)).drop (0 + pre.length + 1)
      = mid ++ endl :: post := by
    rw [Nat.zero_add]
    rw [show pre ++ hdr :: (mid ++ endl :: post) = (pre ++ [hdr]) ++ (mid ++ endl :: post) from by simp]
    rw [show pre.length + 1 = (pre ++ [hdr]).length from by simp]
    exact List.drop_left _ _
  rw [hdrop]
  rw [findIdx?_append_none _ mid _ hmid 0]
  rw [findIdx?_cons_true _ _ _ _ hend]
  simp only [Option.getD_some, Nat.zero_add]
  rw [List.take_left]

/-- Helper: with no end-marker line below the header, the splitter
returns the trimmed remainder of the text. -/
theorem parse_section_to_end (name hdr : List Char) (pre mid : List (List Char))
    (hnl : ∀ l ∈ pre ++ hdr :: mid, '\n' ∉ l)
    (hpre : ∀ l ∈ pre, soleLine name l = false)
    (hhdr : soleLine name hdr = true)
    (hmid : ∀ l ∈ mid, is_end_marker name l = false) :
    parse_section name (joinLines (pre ++ hdr :: mid))
      = some (trimL (joinLines mid)) := by
  have hne : (pre ++ hdr :: mid) ≠ [] := by simp
  unfold parse_section
  dsimp only
  rw [splitChar_joinLines _ hnl hne]
  rw [findIdx?_append_none _ pre _ hpre 0]
  rw [findIdx?_cons_true _ _ _ _ hhdr]
  dsimp only
  have hdrop : (pre ++ hdr :: mid).drop (0 + pre.length + 1) = mid := by
    rw [Nat.zero_add]
    rw [show pre ++ hdr :: mid = (pre ++ [hdr]) ++ mid from by simp]
    rw [show pre.length + 1 = (pre ++ [hdr]).length from by simp]
    exact List.drop_left _ _
  rw [hdrop]
  rw [findIdx?_none_of _ _ 0 hmid]
  simp only [Option.getD_none]
  rw [List.take_length]

/-- C4 (amended): the section splitter returns None when no line of the
definition text consists solely of the section name (case-insensitive);
otherwise it returns the trimmed text strictly between that header line
and the nearest subsequent line consisting solely of one of the
non-skipped marker names, defaulting to the end of the text.  A marker
is skipped when the requested name occurs (lowercased) inside the
marker's pattern string, so the end markers are the other three section
names for Indexes, Foreign Keys and Computed Columns — but for Columns
only Indexes and Foreign Keys: a `Computed Columns` line does NOT
terminate a Columns section. -/
theorem c4_section_splitter :
    ((active_markers ( "Columns".toList)).map Prod.snd = [ "Indexes".toList, "Foreign Keys".toList ])
    ∧ ((active_markers ( "Indexes".toList)).map Prod.snd
        = [ "Columns".toList, "Foreign Keys".toList, "Computed Columns".toList ])
    ∧ ((active_markers ( "Foreign Keys".toList)).map Prod.snd
        = [ "Columns".toList, "Indexes".toList, "Computed Columns".toList ])
    ∧ ((active_markers ( "Computed Columns".toList)).map Prod.snd
        = [ "Columns".toList, "Indexes".toList, "Foreign Keys".toList ])
    ∧ (∀ (name : List Char) (lines : List (List Char)),
        (∀ l ∈ lines, '\n' ∉ l) → lines ≠ [] →
        (∀ l ∈ lines, soleLine name l = false) →
        parse_section name (joinLines lines) = none)
    ∧ (∀ (name hdr endl : List Char) (pre mid post : List (List Char)),
        (∀ l ∈ pre ++ hdr :: (mid ++ endl :: post), '\n' ∉ l) →
        (∀ l ∈ pre, soleLine name l = false) →
        soleLine name hdr = true →
        (∀ l ∈ mid, is_end_marker name l = false) →
        is_end_marker name endl = true →
        parse_section name (joinLines (pre ++ hdr :: (mid ++ endl :: post)))
          = some (trimL (joinLines mid)))
    ∧ (∀ (name hdr : List Char) (pre mid : List (List Char)),
        (∀ l ∈ pre ++ hdr :: mid, '\n' ∉ l) →
        (∀ l ∈ pre, soleLine name l = false) →
        soleLine name hdr = true →
        (∀ l ∈ mid, is_end_marker name l = false) →
        parse_section name (joinLines (pre ++ hdr :: mid))
          = some (trimL (joinLines mid))) :=
  ⟨by decide, by decide, by decide, by decide,
   parse_section_not_found, parse_section_bounded, parse_section_to_end⟩

/-- C4 witness: an `Indexes` section delimited below by `Foreign Keys`
yields exactly the text strictly between, trimmed. -/
theorem c4_section_splitter_witness :
    (soleLine ( "Indexes".toList) ( "Indexes".toList) = true)
    ∧ (is_end_marker ( "Indexes".toList) ( "Foreign Keys".toList) = true)
    ∧ parse_section ( "Indexes".toList)
        (joinLines [ "Columns".toList, "A int".toList, "Indexes".toList,
          "PK_A  A".toList, "Foreign Keys".toList, "FK_x".toList ])
      = some (trimL (joinLines [ "PK_A  A".toList ])) := by
  refine ⟨by decide, by decide, ?_⟩
  exact c4_section_splitter.2.2.2.2.2.1 ( "Indexes".toList) ( "Indexes".toList)
    ( "Foreign Keys".toList) [ "Columns".toList, "A int".toList ] [ "PK_A  A".toList ]
    [ "FK_x".toList ] (by decide) (by decide) (by decide) (by decide) (by decide)

/-- C4 counterexample: for the section name `Columns`, a subsequent
`Computed Columns` line is NOT an end boundary — the code returns the
text through the end including the `Computed Columns` block, while the
claim's nearest-of-the-other-three rule would return just `A int`. -/
theorem c4_counterexample :
    parse_section ( "Columns".toList) ( "Columns\nA int\nComputed Columns\nB x".toList)
      = some ( "A int\nComputed Columns\nB x".toList)
    ∧ parse_section_claim ( "Columns".toList) ( "Columns\nA int\nComputed Columns\nB x".toList)
      = some ( "A int".toList)
    ∧ some ( "A int\nComputed Columns\nB x".toList) ≠ some ( "A int".toList) := by
  exact ⟨by decide, by decide, by decide⟩

theorem hasPre_iff_exists (p : List Char) : ∀ s, hasPre p s = true ↔ ∃ t, s = p ++ t := by
  induction p with
  | nil => intro s; simp [hasPre]
  | cons n ns ih =>
    intro s
    cases s with
    | nil => simp [hasPre]
    | cons h hs =>
      rw [hasPre]
      rw [Bool.and_eq_true]
      constructor
      · rintro ⟨h1, h2⟩
        have he : n = h := by exact of_decide_eq_true h1
        obtain ⟨t, ht⟩ := (ih hs).mp h2
        exact ⟨t, by rw [List.cons_append, ← he, ht]⟩
      · rintro ⟨t, ht⟩
        rw [List.cons_append] at ht
        injection ht with ht1 ht2
        refine ⟨by rw [ht1]; simp, (ih hs).mpr ⟨t, ht2⟩⟩

theorem trimRightL_append_nonws (a flag : List Char) (h1 : flag ≠ [])
    (h2 : ∀ c ∈ flag, isWSChar c = false) :
    trimRightL (a ++ flag) = a ++ flag := by
  unfold trimRightL
  rw [List.reverse_append]
  cases hrev : flag.reverse with
  | nil => exact absurd (by simpa using congrArg List.reverse hrev) h1
  | cons c r =>
    have hc : c ∈ flag := by
      rw [← List.mem_reverse, hrev]
      exact List.mem_cons_self c r
    rw [List.cons_append, List.dropWhile_cons, if_neg (by simp [h2 c hc])]
    rw [← List.cons_append, ← hrev, ← List.reverse_append, List.reverse_reverse]

theorem trimLeftL_append_cons (c : Char) (s t : List Char) (h : isWSChar c = false) :
    trimLeftL ((c :: s) ++ t) = (c :: s) ++ t := by
  rw [List.cons_append]
  exact trimLeftL_cons c (s ++ t) h

theorem splitWs2_foldr_nonws (l : List Char) (h : ∀ c ∈ l, isWSChar c = false) :
    l.foldr splitWs2Step ([[]], []) = ([l], []) := by
  induction l with
  | nil => rfl
  | cons c l ih =>
    rw [List.foldr_cons, ih (fun x hx => h x (List.mem_cons_of_mem c hx))]
    unfold splitWs2Step
    rw [h c (List.mem_cons_self c l)]
    simp

theorem splitWs2_foldr_sep (nm : List Char) (ps : List (List Char)) (rr : List Char)
    (hne : nm ≠ []) (h : ∀ c ∈ nm, isWSChar c = false) (hrr : rr.length ≥ 2) :
    nm.foldr splitWs2Step (ps, rr) = (nm :: ps, []) := by
  induction nm with
  | nil => exact absurd rfl hne
  | cons c nm ih =>
    cases nm with
    | nil =>
      rw [List.foldr_cons, List.foldr_nil]
      unfold splitWs2Step
      rw [h c (List.mem_cons_self c [])]
      simp [hrr]
    | cons c2 nm2 =>
      rw [List.foldr_cons]
      rw [ih (by simp) (fun x hx => h x (List.mem_cons_of_mem c hx))]
      unfold splitWs2Step
      rw [h c (List.mem_cons_self c _)]
      simp

theorem c5_splitWs2 (nm flag : List Char) (hnm : nm ≠ [])
    (hnmws : ∀ c ∈ nm, isWSChar c = false)
    (hflagws : ∀ c ∈ flag, isWSChar c = false) :
    splitWs2 ((nm ++ "  Id  ".toList) ++ flag) = [nm, "Id".toList, flag] := by
  unfold splitWs2
  rw [List.foldr_append, List.foldr_append]
  rw [splitWs2_foldr_nonws flag hflagws]
  have hmid : List.foldr splitWs2Step ([flag], []) ( "  Id  ".toList)
      = ([ "Id".toList, flag], [' ', ' ']) := rfl
  rw [hmid]
  rw [splitWs2_foldr_sep nm [ "Id".toList, flag] [' ', ' '] hnm hnmws (by simp)]
  simp

theorem parse_indexes_pk_row (nm flag : List Char)
    (hpk : hasPre ( "PK_".toList) nm = true)
    (hnmws : ∀ c ∈ nm, isWSChar c = false)
    (hflagne : flag ≠ []) (hflagws : ∀ c ∈ flag, isWSChar c = false)
    (hflagcase : upperL flag = "NO".toList ∨ upperL flag = "N".toList
      ∨ upperL flag = "YES".toList ∨ upperL flag = "Y".toList
      ∨ upperL flag = "UNIQUE".toList) :
    parse_indexes ( "Indexes\nName  Key Columns\n".toList ++ ((nm ++ "  Id  ".toList) ++ flag))
      = [ [( "name".toList, Val.vstr nm),
           ( "key_columns".toList, Val.vstr ( "Id".toList)),
           ( "is_unique".toList, Val.vbool
              (upperL flag == "YES".toList || upperL flag == "Y".toList
                || upperL flag == "UNIQUE".toList)),
           ( "is_primary".toList, Val.vbool true),
           ( "key_column_list".toList, Val.vlist [ "Id".toList ])] ] := by
  obtain ⟨nm3, hnm3⟩ := (hasPre_iff_exists ( "PK_".toList) nm).mp hpk
  subst hnm3
  set row : List Char := (( "PK_".toList ++ nm3) ++ "  Id  ".toList) ++ flag with hrow
  have hnm_ne : ( "PK_".toList ++ nm3) ≠ [] := by simp
  have hnm_nl : '\n' ∉ ( "PK_".toList ++ nm3) := by
    intro hmem
    have := hnmws '\n' hmem
    simp [isWSChar] at this
  have hflag_nl : '\n' ∉ flag := by
    intro hmem
    have := hflagws '\n' hmem
    simp [isWSChar] at this
  have hrow_nl : '\n' ∉ row := by
    rw [hrow]
    intro hmem
    simp only [List.mem_append] at hmem
    rcases hmem with ((hx | hx) | hx) | hx
    · revert hx; decide
    · exact hnm_nl (List.mem_append.mpr (Or.inr hx))
    · revert hx; decide
    · exact hflag_nl hx
  have htlrow : trimLeftL row = row := by
    rw [hrow]
    rw [show (( "PK_".toList ++ nm3) ++ "  Id  ".toList) ++ flag
        = ('P' :: ( "K_".toList ++ nm3 ++ "  Id  ".toList)) ++ flag from by simp]
    exact trimLeftL_append_cons 'P' _ flag (by decide)
  have htrrow : trimRightL row = row := by
    rw [hrow]
    exact trimRightL_append_nonws _ flag hflagne hflagws
  have htrimrow : trimL row = row := by
    unfold trimL
    rw [htlrow, htrrow]
  have hrow_cons : row = 'P' :: (( "K_".toList ++ nm3 ++ "  Id  ".toList) ++ flag) := by
    rw [hrow]; simp
  have hrow_ne : row.isEmpty = false := by rw [hrow_cons]; rfl
  have hsole_c : soleLine ( "Columns".toList) row = false := by
    unfold soleLine
    rw [htrimrow, hrow_cons]
    rfl
  have hsole_fk : soleLine ( "Foreign Keys".toList) row = false := by
    unfold soleLine
    rw [htrimrow, hrow_cons]
    rfl
  have hsole_cc : soleLine ( "Computed Columns".toList) row = false := by
    unfold soleLine
    rw [htrimrow, hrow_cons]
    rfl
  have hrow_end : is_end_marker ( "Indexes".toList) row = false := by
    unfold is_end_marker
    rw [show active_markers ( "Indexes".toList)
        = [( "^\\s*Columns\\s*$".toList, "Columns".toList),
           ( "^\\s*Foreign Keys\\s*$".toList, "Foreign Keys".toList),
           ( "^\\s*Computed Columns\\s*$".toList, "Computed Columns".toList)] from by decide]
    simp only [List.any_cons, List.any_nil, Bool.or_false, Bool.or_eq_false_iff]
    exact ⟨hsole_c, hsole_fk, hsole_cc⟩
  have hsec : parse_section ( "Indexes".toList)
      ( "Indexes\nName  Key Columns\n".toList ++ row)
      = some (trimL (joinLines [ "Name  Key Columns".toList, row])) := by
    have htxt : "Indexes\nName  Key Columns\n".toList ++ row
        = joinLines (([] : List (List Char)) ++ "Indexes".toList
            :: [ "Name  Key Columns".toList, row]) := rfl
    rw [htxt]
    apply parse_section_to_end
    · intro l hl
      simp only [List.nil_append, List.mem_cons] at hl
      rcases hl with rfl | rfl | rfl | h
      · decide
      · decide
      · exact hrow_nl
      · exact absurd h (List.not_mem_nil l)
    · intro l hl
      exact absurd hl (List.not_mem_nil l)
    · decide
    · intro l hl
      simp only [List.mem_cons, List.not_mem_nil, or_false] at hl
      rcases hl with rfl | rfl
      · decide
      · exact hrow_end
  have hsecbody : trimL (joinLines [ "Name  Key Columns".toList, row])
      = "Name  Key Columns\n".toList ++ row := by
    have hjoin : joinLines [ "Name  Key Columns".toList, row]
        = "Name  Key Columns\n".toList ++ row := rfl
    rw [hjoin]
    unfold trimL
    have h1 : trimLeftL ( "Name  Key Columns\n".toList ++ row)
        = "Name  Key Columns\n".toList ++ row := by
      rw [show "Name  Key Columns\n".toList ++ row
          = ('N' :: "ame  Key Columns\n".toList) ++ row from rfl]
      exact trimLeftL_append_cons 'N' _ row (by decide)
    rw [h1]
    rw [hrow]
    rw [show "Name  Key Columns\n".toList ++ (( "PK_".toList ++ nm3 ++ "  Id  ".toList) ++ flag)
        = ( "Name  Key Columns\n".toList ++ ( "PK_".toList ++ nm3 ++ "  Id  ".toList)) ++ flag
        from by simp [List.append_assoc]]
    rw [trimRightL_append_nonws _ flag hflagne hflagws]
  have hsplit2 : splitChar '\n' ( "Name  Key Columns\n".toList ++ row)
      = [ "Name  Key Columns".toList, row] := by
    rw [show "Name  Key Columns\n".toList ++ row
        = "Name  Key Columns".toList ++ '\n' :: row from rfl]
    rw [splitChar_append_cons '\n' _ row (by decide)]
    rw [splitChar_no_sep '\n' row hrow_nl]
  have hlenrow : ¬ (row.length < 5) := by
    rw [hrow]
    simp only [List.length_append, show ( "PK_".toList).length = 3 from rfl,
      show ( "  Id  ".toList).length = 6 from rfl]
    omega
  have hparts : splitWs2 row = [ "PK_".toList ++ nm3, "Id".toList, flag] := by
    rw [hrow]
    rw [show "PK_".toList ++ nm3 ++ "  Id  ".toList ++ flag
        = (( "PK_".toList ++ nm3) ++ "  Id  ".toList) ++ flag from by simp [List.append_assoc]]
    exact c5_splitWs2 ( "PK_".toList ++ nm3) flag hnm_ne hnmws hflagws
  have hpil : parse_index_line row = some
      [( "name".toList, Val.vstr ( "PK_".toList ++ nm3)),
       ( "key_columns".toList, Val.vstr ( "Id".toList)),
       ( "is_unique".toList, Val.vbool
          (upperL flag == "YES".toList || upperL flag == "Y".toList
            || upperL flag == "UNIQUE".toList)),
       ( "is_primary".toList, Val.vbool true)] := by
    unfold parse_index_line
    rw [if_neg hlenrow]
    rw [hparts]
    rw [if_pos (by simp)]
    unfold parse_index_line_main
    simp only [List.headD_cons, List.drop_succ_cons, List.drop_zero, List.length_cons,
      List.length_nil, Nat.zero_add]
    rw [hpk]
    simp only [Bool.or_true]
    norm_num
    refine ⟨?_, ?_⟩
    · rcases hflagcase with h | h | h | h | h <;> rw [h] <;> decide
    · rcases hflagcase with h | h | h | h | h <;> rw [h] <;> simp
  unfold parse_indexes
  rw [hsec]
  dsimp only
  rw [hsecbody, hsplit2]
  rw [findIdx?_cons_true _ _ _ _ (by decide)]
  dsimp only
  simp only [List.drop_succ_cons, List.drop_zero, Nat.zero_add, List.map_cons, List.map_nil,
    htrimrow, List.filter_cons, List.filter_nil]
  rw [show (!row.isEmpty) = true from by rw [hrow_ne]; rfl]
  simp only [if_true]
  rw [List.filterMap_cons, hpil]
  dsimp only
  rw [List.filterMap_nil]
  simp only [List.map_cons, List.map_nil]
  rfl

theorem normalize_index_row_pk (row_data : List (List Char × List Char)) (nm : List Char)
    (hname : List.lookup ( "name".toList) row_data = some nm)
    (hpk : hasPre ( "PK_".toList) nm = true) :
    (normalize_index_row row_data).map
        (fun it => (List.lookup ( "is_primary".toList) it, List.lookup ( "is_unique".toList) it))
      = some (some (Val.vbool true), some (Val.vbool true)) := by
  obtain ⟨t, ht⟩ := (hasPre_iff_exists _ _).mp hpk
  subst ht
  unfold normalize_index_row
  rw [show pyOrStr (List.lookup ( "name".toList) row_data)
      (List.lookup ( "index_name".toList) row_data) = some ( "PK_".toList ++ t) from by
    unfold pyOrStr; rw [hname]; rfl]
  dsimp only
  rw [if_neg (by rw [show ( "PK_".toList ++ t).isEmpty = false from rfl]; simp)]
  rw [hpk]
  simp only [Bool.true_or, Bool.or_true, if_pos]
  rcases hkc : pyOrStr (List.lookup ( "key_columns".toList) row_data)
      (List.lookup ( "columns".toList) row_data) with _ | kc
  · rfl
  · by_cases hkce : kc.isEmpty = true
    · dsimp only
      rw [if_pos hkce]
      rfl
    · dsimp only
      rw [if_neg hkce]
      rfl

/-- C5 (amended): in the DOM parser a `PK_`-named index row always
yields is_primary = true and is_unique = true, regardless of any
explicit unique flag in the row.  In the structured-text parser,
is_primary is always true for such a row, and is_unique is true for an
explicit YES/Y/UNIQUE flag — but an explicit NO/N flag in the row's
third field OVERRIDES is_unique to false even for a `PK_` name. -/
theorem c5_pk_primary_unique :
    (∀ (row_data : List (List Char × List Char)) (nm : List Char),
      List.lookup ( "name".toList) row_data = some nm →
      hasPre ( "PK_".toList) nm = true →
      (normalize_index_row row_data).map
          (fun it => (List.lookup ( "is_primary".toList) it, List.lookup ( "is_unique".toList) it))
        = some (some (Val.vbool true), some (Val.vbool true)))
    ∧ (∀ nm flag : List Char,
      hasPre ( "PK_".toList) nm = true →
      (∀ c ∈ nm, isWSChar c = false) →
      flag ≠ [] → (∀ c ∈ flag, isWSChar c = false) →
      (upperL flag = "NO".toList ∨ upperL flag = "N".toList) →
      parse_indexes ( "Indexes\nName  Key Columns\n".toList ++ ((nm ++ "  Id  ".toList) ++ flag))
        = [ [( "name".toList, Val.vstr nm),
             ( "key_columns".toList, Val.vstr ( "Id".toList)),
             ( "is_unique".toList, Val.vbool false),
             ( "is_primary".toList, Val.vbool true),
             ( "key_column_list".toList, Val.vlist [ "Id".toList ])] ])
    ∧ (∀ nm flag : List Char,
      hasPre ( "PK_".toList) nm = true →
      (∀ c ∈ nm, isWSChar c = false) →
      flag ≠ [] → (∀ c ∈ flag, isWSChar c = false) →
      (upperL flag = "YES".toList ∨ upperL flag = "Y".toList ∨ upperL flag = "UNIQUE".toList) →
      parse_indexes ( "Indexes\nName  Key Columns\n".toList ++ ((nm ++ "  Id  ".toList) ++ flag))
        = [ [( "name".toList, Val.vstr nm),
             ( "key_columns".toList, Val.vstr ( "Id".toList)),
             ( "is_unique".toList, Val.vbool true),
             ( "is_primary".toList, Val.vbool true),
             ( "key_column_list".toList, Val.vlist [ "Id".toList ])] ]) := by
  refine ⟨normalize_index_row_pk, ?_, ?_⟩
  · intro nm flag hpk hws hfne hfws hcase
    have hmain := parse_indexes_pk_row nm flag hpk hws hfne hfws
      (by rcases hcase with h | h; exacts [Or.inl h, Or.inr (Or.inl h)])
    rw [hmain]
    have hb : (upperL flag == "YES".toList || upperL flag == "Y".toList
        || upperL flag == "UNIQUE".toList) = false := by
      rcases hcase with h | h <;> rw [h] <;> decide
    rw [hb]
  · intro nm flag hpk hws hfne hfws hcase
    have hmain := parse_indexes_pk_row nm flag hpk hws hfne hfws
      (by rcases hcase with h | h | h
          exacts [Or.inr (Or.inr (Or.inl h)), Or.inr (Or.inr (Or.inr (Or.inl h))),
                  Or.inr (Or.inr (Or.inr (Or.inr h)))])
    rw [hmain]
    have hb : (upperL flag == "YES".toList || upperL flag == "Y".toList
        || upperL flag == "UNIQUE".toList) = true := by
      rcases hcase with h | h | h <;> rw [h] <;> decide
    rw [hb]

/-- C5 witness: the row `PK_Order_Id  Id  NO` parses with
is_primary = true but is_unique = false in the text parser, while the
DOM parser yields is_primary = is_unique = true for the same data. -/
theorem c5_pk_primary_unique_witness :
    (hasPre ( "PK_".toList) ( "PK_Order_Id".toList) = true)
    ∧ (upperL ( "NO".toList) = "NO".toList)
    ∧ parse_indexes ( "Indexes\nName  Key Columns\n".toList
        ++ (( "PK_Order_Id".toList ++ "  Id  ".toList) ++ "NO".toList))
      = [ [( "name".toList, Val.vstr ( "PK_Order_Id".toList)),
           ( "key_columns".toList, Val.vstr ( "Id".toList)),
           ( "is_unique".toList, Val.vbool false),
           ( "is_primary".toList, Val.vbool true),
           ( "key_column_list".toList, Val.vlist [ "Id".toList ])] ]
    ∧ (normalize_index_row [( "name".toList, "PK_Order_Id".toList),
         ( "key_columns".toList, "Id".toList), ( "is_unique".toList, "NO".toList)]).map
        (fun it => (List.lookup ( "is_primary".toList) it, List.lookup ( "is_unique".toList) it))
      = some (some (Val.vbool true), some (Val.vbool true)) := by
  refine ⟨by decide, by decide, ?_, ?_⟩
  · exact c5_pk_primary_unique.2.1 ( "PK_Order_Id".toList) ( "NO".toList)
      (by decide) (by decide) (by decide) (by decide) (Or.inl (by decide))
  · exact c5_pk_primary_unique.1 _ ( "PK_Order_Id".toList) (by decide) (by decide)

/-- C5 counterexample: in the structured-text parser the index row
`PK_Order_Id  Id  NO` yields is_unique = false — the explicit NO flag
overrides the PK naming convention, contradicting the claim that
is_unique is true regardless of the explicit flag. -/
theorem c5_counterexample :
    (parse_indexes ( "Indexes\nName  Key Columns\nPK_Order_Id  Id  NO".toList)).map
        (fun it => (List.lookup ( "is_primary".toList) it, List.lookup ( "is_unique".toList) it))
      = [(some (Val.vbool true), some (Val.vbool false))]
    ∧ some (Val.vbool false) ≠ some (Val.vbool true) := by
  exact ⟨by decide, by decide⟩

theorem mem_insortPage (z x : List Char × Nat) (l : List (List Char × Nat)) :
    z ∈ insortPage x l ↔ z = x ∨ z ∈ l := by
  induction l with
  | nil => simp [insortPage]
  | cons y ys ih =>
    rw [insortPage]
    by_cases h : y.2 < x.2
    · rw [if_pos h]
      simp only [List.mem_cons, ih]
      tauto
    · rw [if_neg h]
      exact List.mem_cons

theorem insortPage_pairwise (x : List Char × Nat) (l : List (List Char × Nat))
    (h : l.Pairwise (fun a b => a.2 ≤ b.2)) :
    (insortPage x l).Pairwise (fun a b => a.2 ≤ b.2) := by
  induction l with
  | nil => simp [insortPage]
  | cons y ys ih =>
    rcases List.pairwise_cons.mp h with ⟨hy, hys⟩
    by_cases hle : y.2 < x.2
    · rw [insortPage, if_pos hle]
      refine List.pairwise_cons.mpr ⟨?_, ih hys⟩
      intro z hz
      rcases (mem_insortPage z x ys).mp hz with rfl | hz
      · omega
      · exact hy z hz
    · rw [insortPage, if_neg hle]
      refine List.pairwise_cons.mpr ⟨?_, h⟩
      intro z hz
      rcases List.mem_cons.mp hz with rfl | hz
      · omega
      · exact Nat.le_trans (by omega) (hy z hz)

theorem sortByPage_pairwise (l : List (List Char × Nat)) :
    (sortByPage l).Pairwise (fun a b => a.2 ≤ b.2) := by
  induction l with
  | nil => exact List.Pairwise.nil
  | cons x xs ih => exact insortPage_pairwise x (sortByPage xs) ih

/-- C3: The table-of-contents builder sorts its entries by declared page
number, ascending: every output list is pairwise ordered by page. But it
performs NO de-duplication: a table name listed twice in the TOC stays
twice in the output (see the counterexample). -/
theorem c3_toc_sorted (text : List Char) :
    (find_and_parse_toc text).Pairwise (fun a b => a.2 ≤ b.2) := by
  unfold find_and_parse_toc
  dsimp only
  split
  · exact List.Pairwise.nil
  · exact sortByPage_pairwise _

/-- C3 counterexample: a TOC that lists `dbo.Orders` on two pages keeps
both entries - there is no de-duplication of repeated table names, so
the names of the result are not pairwise distinct. -/
theorem c3_counterexample :
    find_and_parse_toc ( "doc--- Page 1\nTable of Contents\ndbo.Orders....11\ndbo.Orders....10".toList)
      = [( "dbo.Orders".toList, 10), ( "dbo.Orders".toList, 11)]
    ∧ ¬ ((find_and_parse_toc ( "doc--- Page 1\nTable of Contents\ndbo.Orders....11\ndbo.Orders....10".toList)).map
          (fun e => e.1)).Nodup := by
  constructor
  · decide
  · decide

theorem ne_nil_of_hasSub (n s : List Char) (hn : n ≠ []) (h : hasSub n s = true) :
    s ≠ [] := by
  intro rfl0
  subst rfl0
  have : n.isEmpty = true := h
  cases n with
  | nil => exact hn rfl
  | cons c cs => simp [List.isEmpty] at this

theorem headD_append_single (l : List (List Char)) (x d : List Char) (h : l ≠ []) :
    (l ++ [x]).headD d = l.headD d := by
  cases l with
  | nil => exact absurd rfl h
  | cons a as => rfl

theorem joinLines_ne_nil (lns : List (List Char)) (h : lns.headD [] ≠ []) :
    joinLines lns ≠ [] := by
  cases lns with
  | nil => exact absurd rfl h
  | cons l rest =>
    cases l with
    | nil => exact absurd rfl h
    | cons c cs =>
      cases rest with
      | nil => simp [joinLines, joinSep]
      | cons q qs => simp [joinLines, joinSep]

theorem trimL_eq_nil : trimL [] = [] := rfl

theorem found_start_marker_ne_nil (ctx : ScanCtx) (stripped : List Char)
    (hb : ctx.bracketed ≠ []) (hp : ctx.plain ≠ []) (hm : ctx.tableLower ≠ [])
    (h : found_start_marker ctx stripped = true) : stripped ≠ [] := by
  intro rfl0
  subst rfl0
  have h3 : hasSub ctx.bracketed [] = true ∨ hasSub ctx.plain [] = true
      ∨ (hasSub ctx.schemaLower (lowerL []) = true ∧ hasSub ctx.tableLower (lowerL []) = true) := by
    simpa [found_start_marker, or_assoc] using h
  rcases h3 with ha | hc | hd
  · exact ne_nil_of_hasSub _ _ hb ha rfl
  · exact ne_nil_of_hasSub _ _ hp hc rfl
  · exact ne_nil_of_hasSub _ _ hm hd.2 rfl

theorem processLine_inv (ctx : ScanCtx) (lo hi i : Nat) (st : ScanSt) (line : List Char)
    (hb : ctx.bracketed ≠ []) (hp : ctx.plain ≠ []) (hm : ctx.tableLower ≠ [])
    (hlo : lo ≤ i) (hhi : i < hi) (h : ScanInv lo hi st) :
    ScanInv lo hi (processLine ctx i st line) := by
  unfold processLine
  cases hE : st.ended with
  | true => simpa using h
  | false =>
    simp only [Bool.false_eq_true, if_false]
    cases hS : st.startedAt with
    | none =>
      dsimp only
      by_cases hF : found_start_marker ctx (trimL line) = true
      · rw [if_pos hF]
        refine ⟨fun hc => by simp at hc, fun a ha => ?_⟩
        have ha' : i = a := by simpa using ha
        subst ha'
        have hstr : trimL line ≠ [] := found_start_marker_ne_nil ctx _ hb hp hm hF
        have hline : line ≠ [] := by
          intro rfl0
          subst rfl0
          exact hstr trimL_eq_nil
        have hempty : st.lns = [] := h.1 hS
        refine ⟨hlo, hhi, ?_⟩
        simp only [hempty, List.nil_append]
        simpa using hline
      · rw [if_neg hF]
        exact h
    | some a0 =>
      dsimp only
      by_cases hN : hit_next_table ctx (trimL line) = true
      · rw [if_pos hN]
        refine ⟨fun hc => by simp at hc, fun a ha => ?_⟩
        have ha' : a0 = a := by simpa using ha
        subst ha'
        exact h.2 a0 hS
      · rw [if_neg hN]
        by_cases hH : is_header_or_footer line i = true
        · rw [if_pos hH]
          exact h
        · rw [if_neg hH]
          refine ⟨fun hc => by simp at hc, fun a ha => ?_⟩
          have ha' : a0 = a := by simpa using ha
          subst ha'
          have hold := h.2 a0 hS
          have hnn : st.lns ≠ [] := by
            intro hc
            rw [hc] at hold
            exact hold.2.2 rfl
          exact ⟨hold.1, hold.2.1, by
            show (st.lns ++ [line]).headD [] ≠ []
            rw [headD_append_single st.lns line [] hnn]
            exact hold.2.2⟩

theorem foldl_processLine_inv (ctx : ScanCtx) (lo hi i : Nat)
    (hb : ctx.bracketed ≠ []) (hp : ctx.plain ≠ []) (hm : ctx.tableLower ≠ [])
    (hlo : lo ≤ i) (hhi : i < hi) (lines : List (List Char)) (st : ScanSt)
    (h : ScanInv lo hi st) :
    ScanInv lo hi (lines.foldl (processLine ctx i) st) := by
  induction lines generalizing st with
  | nil => exact h
  | cons l ls ih =>
    exact ih (processLine ctx i st l) (processLine_inv ctx lo hi i st l hb hp hm hlo hhi h)

theorem scanPages_inv (ctx : ScanCtx) (pages : List (List Char)) (fpi lo hi : Nat)
    (hb : ctx.bracketed ≠ []) (hp : ctx.plain ≠ []) (hm : ctx.tableLower ≠ [])
    (idxs : List Nat) (hidx : ∀ j ∈ idxs, lo ≤ j ∧ j < hi) (st : ScanSt)
    (h : ScanInv lo hi st) :
    ScanInv lo hi (scanPages ctx pages fpi idxs st) := by
  induction idxs generalizing st with
  | nil => exact h
  | cons i rest ih =>
    rw [scanPages]
    split
    · exact h
    · dsimp only
      have hbounds := hidx i (List.mem_cons_self i rest)
      have h2 : ScanInv lo hi (processPage ctx pages i st) :=
        foldl_processLine_inv ctx lo hi i hb hp hm hbounds.1 hbounds.2 _ st h
      split
      · exact h2
      · split
        · exact h2
        · exact ih (fun j hj => hidx j (List.mem_cons_of_mem i hj)) _ h2

theorem runScan_inv (text : List Char) (toc : List (List Char × Nat)) (idx : Nat)
    (name : List Char) (docPage : Nat) (htbl : (split1dot name).2 ≠ []) :
    ScanInv (docPage + PDF_PAGE_OFFSET - 2)
      (min (splitOnSub ( "--- Page ".toList) text).length (docPage + PDF_PAGE_OFFSET + 3))
      (runScan text toc idx name docPage) := by
  unfold runScan
  dsimp only
  apply scanPages_inv
  · simp [mkScanCtx, mkBracketed]
  · simp [mkScanCtx, mkPlain]
  · simpa [mkScanCtx, lowerL] using htbl
  · intro j hj
    rw [List.mem_range'_1] at hj
    omega
  · exact ⟨fun _ => rfl, fun a ha => by simp at ha⟩

/-- C7: When the boundary scanner finds the start marker (it returns a
definition text and an actual page index), the actual page lies inside
the scanned window `[doc_page, min len (doc_page + 5))` of 0-indexed
file pages, the drift recorded by `parse` equals the actual page index
minus the expected page index `doc_page + 1`, the table is not treated
as not found, and a non-zero drift puts
`(name, expected + 1, actual + 1, drift)` into the drift statistics -
in particular expected PDF page 42 with the marker on PDF page 45 gives
drift = +3 (see the witness). -/
theorem c7_drift_recorded (text : List Char) (toc : List (List Char × Nat))
    (idx : Nat) (name : List Char) (docPage : Nat) (d : List Char) (a : Nat)
    (h : extract_table_definition_section text toc idx name docPage = (some d, some a))
    (htbl : (split1dot name).2 ≠ []) :
    (docPage ≤ a ∧ a < min (splitOnSub ( "--- Page ".toList) text).length (docPage + 5))
    ∧ table_drift text toc idx name docPage = some ((a : Int) - ((docPage : Int) + 1))
    ∧ not_found_skipped text toc idx name docPage = false
    ∧ ((a : Int) - ((docPage : Int) + 1) ≠ 0 →
        recorded_drift text toc idx name docPage
          = some (name, docPage + 2, a + 1, (a : Int) - ((docPage : Int) + 1))) := by
  have h0 := h
  unfold extract_table_definition_section at h
  dsimp only at h
  split at h
  · simp at h
  · have hinv := runScan_inv text toc idx name docPage htbl
    cases hA : (runScan text toc idx name docPage).startedAt with
    | none => rw [hA] at h; simp at h
    | some a0 =>
      rw [hA] at h
      dsimp only at h
      split at h
      · simp at h
      · have hda : joinLines (runScan text toc idx name docPage).lns = d ∧ a0 = a := by
          constructor
          · exact congrArg (fun p => (p.1.getD [])) h
          · have := congrArg (fun p => p.2) h
            simpa using this
        obtain ⟨hd, ha0⟩ := hda
        subst ha0
        have hbounds := hinv.2 a0 hA
        have hcast : (expected_page_idx docPage : Int) = (docPage : Int) + 1 := by
          unfold expected_page_idx PDF_PAGE_OFFSET
          omega
        have hdne : d ≠ [] := by
          rw [← hd]
          exact joinLines_ne_nil _ hbounds.2.2
        refine ⟨?_, ?_, ?_, ?_⟩
        · have h1 := hbounds.1
          have h2 := hbounds.2.1
          unfold PDF_PAGE_OFFSET at h1 h2
          omega
        · unfold table_drift
          rw [h0]
          dsimp only
          rw [hcast]
        · unfold not_found_skipped
          rw [h0]
          dsimp only
          cases d with
          | nil => exact absurd rfl hdne
          | cons c cs => rfl
        · intro hne
          unfold recorded_drift
          rw [h0]
          dsimp only
          have hie : d.isEmpty = false := by
            cases d with
            | nil => exact absurd rfl hdne
            | cons c cs => rfl
          rw [if_neg (by simp [hie])]
          rw [hcast, if_neg hne]
          have he2 : expected_page_idx docPage + 1 = docPage + 2 := by
            unfold expected_page_idx PDF_PAGE_OFFSET
            omega
          rw [he2]

set_option maxRecDepth 100000 in
set_option maxHeartbeats 1000000 in
/-- C7 witness: on the 45-page example text whose TOC declares
`dbo.Orders` at document page 40 (expected PDF page 42) but whose
definition sits on file page 44 (PDF page 45), the scan finds the
marker inside the window and drift +3 is recorded as
`(dbo.Orders, 42, 45, 3)`. -/
theorem c7_drift_recorded_witness :
    (40 ≤ 44 ∧ 44 < min (splitOnSub ( "--- Page ".toList) c7text).length (40 + 5))
    ∧ table_drift c7text c7toc 0 ( "dbo.Orders".toList) 40 = some ((44 : Int) - ((40 : Int) + 1))
    ∧ not_found_skipped c7text c7toc 0 ( "dbo.Orders".toList) 40 = false
    ∧ ((44 : Int) - (((40 : Nat) : Int) + 1) ≠ 0 →
        recorded_drift c7text c7toc 0 ( "dbo.Orders".toList) 40
          = some (( "dbo.Orders".toList), (40 : Nat) + 2, (44 : Nat) + 1, (44 : Int) - (((40 : Nat) : Int) + 1))) :=
  c7_drift_recorded c7text c7toc 0 ( "dbo.Orders".toList) 40
    ( "[dbo].[Orders]\nId int".toList) 44 (by decide) (by decide)
